import Mathlib

/-!
Verification of the imgsim pixel-clustering core (pixel distances,
agglomerative clustering, k-means clustering) against its specification.

The Rust source is shallowly embedded:
* `u8` channel values become `Fin 256`; coordinates `(u32, u32)` become
  `ℕ × ℕ`; `usize` cluster ids become `ℕ`.
* `f32` arithmetic is idealised as exact real arithmetic over `ℝ`
  (`powf 2.0` is `^ 2`, `sqrt` is `Real.sqrt`, `f32::MAX` is the exact
  value `2^128 - 2^104` of that constant).
* `BTreeMap<(u32,u32), usize>` (the cluster lookup) becomes a function
  `ℕ × ℕ → ℕ` (agglomerative: after initialisation every queried key is
  present, indexing a missing key would panic) or `ℕ × ℕ → Option ℕ`
  (k-means, where absence is observable in the convergence check).
  `BTreeMap<usize, Vec<(u32,u32)>>` becomes `ℕ → List (ℕ × ℕ)` with `[]`
  for an absent entry (the code itself leaves emptied `Vec`s behind after
  `take`, so absent and empty are not distinguished by any later read).
* fallible paths (`Option::unwrap` panics, loops that may not terminate)
  return `Option`, with `none` for the panic / exhausted fuel.
* the two sources of nondeterminism are parameters: the random first
  centroid of each k-means candidate is a function `ℕ → ℕ × ℕ` from the
  candidate `k`, and the while-loop gets explicit fuel.
-/

namespace Imgsim

/-- An RGBA pixel, `image::Rgba<u8>`: four 8-bit channels. -/
structure Rgba where
  r : Fin 256
  g : Fin 256
  b : Fin 256
  a : Fin 256

/-- `alpha_only_dist` (pixeldist/algs.rs): `(a_a as i16 - a_b as i16).abs() as f32 / 255.0`. -/
noncomputable def alpha_only_dist (a_a a_b : Fin 256) : ℝ :=
  ((((a_a.val : ℤ) - (a_b.val : ℤ)).natAbs : ℕ) : ℝ) / 255

/-- `euclidean` (pixeldist/algs.rs): normalised Euclidean RGB distance when both
alphas are non-zero, otherwise `alpha_only_dist`. -/
noncomputable def euclidean (pixel_a pixel_b : Rgba) : ℝ :=
  let max_diff_for_normalisation : ℝ := 195075
  let ar : ℝ := pixel_a.r.val
  let ag : ℝ := pixel_a.g.val
  let ab : ℝ := pixel_a.b.val
  let br : ℝ := pixel_b.r.val
  let bg : ℝ := pixel_b.g.val
  let bb : ℝ := pixel_b.b.val
  if pixel_a.a.val ≠ 0 ∧ pixel_b.a.val ≠ 0 then
    Real.sqrt (((ar - br) ^ 2 + (ag - bg) ^ 2 + (ab - bb) ^ 2) / max_diff_for_normalisation)
  else
    alpha_only_dist pixel_a.a pixel_b.a

/-- `redmean` (pixeldist/algs.rs): perceptually weighted distance when both
alphas are non-zero, otherwise `alpha_only_dist`. -/
noncomputable def redmean (pixel_a pixel_b : Rgba) : ℝ :=
  let max_diff_for_normalisation : ℝ := 585225
  let ar : ℝ := pixel_a.r.val
  let ag : ℝ := pixel_a.g.val
  let ab : ℝ := pixel_a.b.val
  let br : ℝ := pixel_b.r.val
  let bg : ℝ := pixel_b.g.val
  let bb : ℝ := pixel_b.b.val
  if pixel_a.a.val ≠ 0 ∧ pixel_b.a.val ≠ 0 then
    let rmean : ℝ := (ar + br) / 2
    let r_multiple : ℝ := 2 + rmean / 255
    let g_multiple : ℝ := 4
    let b_multiple : ℝ := 2 + (255 - rmean) / 255
    let delta_r_sq : ℝ := (ar - br) ^ 2
    let delta_g_sq : ℝ := (ag - bg) ^ 2
    let delta_b_sq : ℝ := (ab - bb) ^ 2
    Real.sqrt ((r_multiple * delta_r_sq + g_multiple * delta_g_sq + b_multiple * delta_b_sq)
      / max_diff_for_normalisation)
  else
    alpha_only_dist pixel_a.a pixel_b.a

/-- `PixeldistAlg` (pixeldist/algs.rs). -/
inductive PixeldistAlg where
  | Euclidean
  | Redmean

/-- `get_pixeldist` (pixeldist/algs.rs): dispatch on the configured algorithm. -/
noncomputable def get_pixeldist (alg : PixeldistAlg) (pixel_a pixel_b : Rgba) : ℝ :=
  match alg with
  | PixeldistAlg.Euclidean => euclidean pixel_a pixel_b
  | PixeldistAlg.Redmean => redmean pixel_a pixel_b

/-- An in-memory RGBA image (`image::RgbaImage`): a width, a height, and the
pixel at each in-bounds coordinate (`get_pixel`). -/
structure Image where
  width : ℕ
  height : ℕ
  pix : ℕ × ℕ → Rgba

/-- The image's coordinates in `enumerate_pixels` order: row-major, `(x, y)`
left to right within a row, rows top to bottom. -/
def coordsList (img : Image) : List (ℕ × ℕ) :=
  (List.range img.height).flatMap (fun y => (List.range img.width).map (fun x => (x, y)))

/-- `PixeldistFactor` (data/imgsim_image.rs): an adjacency pair with its
precomputed pixel distance. -/
structure PixeldistFactor where
  a_coords : ℕ × ℕ
  b_coords : ℕ × ℕ
  distance : ℝ

/-- `ImgsimImage::build_factors` (data/imgsim_image.rs): for every pixel in
raster order, a factor to its right, bottom-right, bottom and bottom-left
neighbour whenever `get_pixel_checked` finds one in bounds. -/
noncomputable def build_factors (img : Image) (alg : PixeldistAlg) : List PixeldistFactor :=
  (coordsList img).flatMap (fun c =>
    let x := c.1
    let y := c.2
    (if x + 1 < img.width then
        [⟨(x, y), (x + 1, y), get_pixeldist alg (img.pix (x, y)) (img.pix (x + 1, y))⟩]
      else []) ++
    (if x + 1 < img.width ∧ y + 1 < img.height then
        [⟨(x, y), (x + 1, y + 1), get_pixeldist alg (img.pix (x, y)) (img.pix (x + 1, y + 1))⟩]
      else []) ++
    (if y + 1 < img.height then
        [⟨(x, y), (x, y + 1), get_pixeldist alg (img.pix (x, y)) (img.pix (x, y + 1))⟩]
      else []) ++
    (if 0 < x ∧ y + 1 < img.height then
        [⟨(x, y), (x - 1, y + 1), get_pixeldist alg (img.pix (x, y)) (img.pix (x - 1, y + 1))⟩]
      else []))

/-- The pair of maps the clustering algorithms build (clustering/algs.rs):
`new_cluster_lookup : BTreeMap<(u32,u32), usize>` as a total function (the
agglomerative code initialises every image coordinate, and indexing a missing
key would panic), and `new_pixel_clusters : BTreeMap<usize, Vec<(u32,u32)>>`
with `[]` standing for an absent entry. -/
structure AggloState where
  cluster_lookup : ℕ × ℕ → ℕ
  pixel_clusters : ℕ → List (ℕ × ℕ)

/-- One step of the initialisation loop of `agglomerative` (clustering/algs.rs):
assign the next pixel its own fresh cluster id and advance the id counter. -/
def initFoldStep (acc : AggloState × ℕ) (c : ℕ × ℕ) : AggloState × ℕ :=
  ({ cluster_lookup := fun d => if d = c then acc.2 else acc.1.cluster_lookup d,
     pixel_clusters := fun i => if i = acc.2 then [c] else acc.1.pixel_clusters i },
   acc.2 + 1)

/-- The initial maps of `agglomerative`: every pixel in its own singleton
cluster, ids assigned in `enumerate_pixels` order starting from 0. -/
def initAggloState (img : Image) : AggloState :=
  ((coordsList img).foldl initFoldStep (⟨fun _ => 0, fun _ => []⟩, 0)).1

/-- `consume_cluster` (clustering/algs.rs): `take` the prey cluster's member
vector (leaving it empty), rewrite each taken coordinate's lookup entry to the
predator id, and append the taken members to the predator cluster's vector. -/
def consume_cluster (predator_cluster_id prey_cluster_id : ℕ) (s : AggloState) : AggloState :=
  let prey_cluster_items := s.pixel_clusters prey_cluster_id
  let taken : ℕ → List (ℕ × ℕ) :=
    fun i => if i = prey_cluster_id then [] else s.pixel_clusters i
  { cluster_lookup :=
      fun coords => if coords ∈ prey_cluster_items then predator_cluster_id
        else s.cluster_lookup coords,
    pixel_clusters :=
      fun i => if i = predator_cluster_id then
          taken predator_cluster_id ++ prey_cluster_items
        else taken i }

/-- The body of the factor loop of `agglomerative` (clustering/algs.rs): when
the two endpoint clusters differ and the factor's distance is below the
threshold, the cluster with more members consumes the other; on a tie the `else`
branch makes the b-cluster consume the a-cluster. -/
noncomputable def aggloStep (nth_percentile_dist : ℝ) (s : AggloState)
    (factor : PixeldistFactor) : AggloState :=
  let a_cluster : ℕ := s.cluster_lookup factor.a_coords
  let b_cluster : ℕ := s.cluster_lookup factor.b_coords
  if a_cluster ≠ b_cluster ∧ factor.distance < nth_percentile_dist then
    if (s.pixel_clusters a_cluster).length > (s.pixel_clusters b_cluster).length then
      consume_cluster a_cluster b_cluster s
    else
      consume_cluster b_cluster a_cluster s
  else s

/-- The sorted factor-distance list of `agglomerative`
(`sort_unstable_by partial_cmp`). -/
noncomputable def sortedDists (factors : List PixeldistFactor) : List ℝ :=
  (factors.map (fun factor => factor.distance)).mergeSort (fun a b => decide (a ≤ b))

/-- The percentile threshold of `agglomerative` (clustering/algs.rs):
`sorted_dists.get(ceil(len * tolerance))`, falling back to
`sorted_dists.get(floor(len * tolerance)).unwrap()`; `none` is the panic of
that `unwrap` when both indices are out of bounds. -/
noncomputable def nth_percentile_dist (factors : List PixeldistFactor) (tolerance : ℚ) :
    Option ℝ :=
  let sorted_dists := sortedDists factors
  match sorted_dists.get? (⌈(sorted_dists.length : ℚ) * tolerance⌉.toNat) with
  | some val => some val
  | none => sorted_dists.get? (⌊(sorted_dists.length : ℚ) * tolerance⌋.toNat)

/-- `agglomerative` (clustering/algs.rs): compute the percentile threshold
(`none` = panic), give every pixel its own cluster, then fold the factor list
through the merge step. -/
noncomputable def agglomerative (img : Image) (alg : PixeldistAlg) (tolerance : ℚ) :
    Option AggloState :=
  let factors := build_factors img alg
  match nth_percentile_dist factors tolerance with
  | none => none
  | some threshold => some (factors.foldl (aggloStep threshold) (initAggloState img))

/-- The partition invariant for the maps an agglomerative run stores: the
lookup sends each image coordinate to a cluster whose member list contains it,
no coordinate is in two clusters' member lists, and member lists hold image
coordinates only. -/
def AggloPartition (img : Image) (s : AggloState) : Prop :=
  (∀ c ∈ coordsList img, c ∈ s.pixel_clusters (s.cluster_lookup c)) ∧
  (∀ (c : ℕ × ℕ) (i j : ℕ), c ∈ s.pixel_clusters i → c ∈ s.pixel_clusters j → i = j) ∧
  (∀ (i : ℕ) (c : ℕ × ℕ), c ∈ s.pixel_clusters i → c ∈ coordsList img)

/-- The exact value of `f32::MAX`. -/
noncomputable def f32MAX : ℝ := 2 ^ 128 - 2 ^ 104

/-- `euclidean_dist` (clustering/algs.rs): unnormalised Euclidean distance of
two RGB triples (the source's parameter names are kept as written, including
their scrambled order; the body pairs `r` with `r`, `g` with `g`, `b` with `b`
positionally just as the source does). -/
noncomputable def euclidean_dist (r_a b_a g_a r_b b_b g_b : ℕ) : ℝ :=
  Real.sqrt (((((r_a : ℤ) - r_b) ^ 2 + ((g_a : ℤ) - g_b) ^ 2 + ((b_a : ℤ) - b_b) ^ 2 : ℤ)) : ℝ)

/-- A k-means centroid (clustering/algs.rs `((u32, u32), [u8; 3])`): a pixel
coordinate with its RGB triple. -/
structure Centroid where
  coords : ℕ × ℕ
  r : ℕ
  g : ℕ
  b : ℕ

/-- The k-means maps: the lookup is `Option`-valued because the convergence
check observes absent keys; `[]` again stands for an absent member vector. -/
structure KState where
  cluster_lookup : ℕ × ℕ → Option ℕ
  pixel_clusters : ℕ → List (ℕ × ℕ)

/-- The cleared maps at the start of each candidate k (and of each Lloyd
iteration). -/
def emptyKState : KState :=
  { cluster_lookup := fun _ => none, pixel_clusters := fun _ => [] }

/-- The inner scan of the seeding loop: the distance from pixel `p`'s RGB to
the closest existing centroid, a fold starting from `f32::MAX`. -/
noncomputable def closest_centroid_dist (centroids : List Centroid) (p : Rgba) : ℝ :=
  centroids.foldl
    (fun closest cc =>
      let dist := euclidean_dist p.r.val p.g.val p.b.val cc.r cc.g cc.b
      if dist < closest then dist else closest)
    f32MAX

/-- The per-candidate scan of the seeding loop (clustering/algs.rs): track the
pixel whose closest-centroid distance is maximal, starting from the placeholder
`((0,0), [0,0,0], 0.0)`; a pixel replaces the tracked one only on a strictly
greater distance. -/
noncomputable def max_dist_pixel_scan (img : Image) (centroids : List Centroid) :
    (ℕ × ℕ) × (ℕ × ℕ × ℕ) × ℝ :=
  (coordsList img).foldl
    (fun max_dist_pixel c =>
      let p := img.pix c
      let closest := closest_centroid_dist centroids p
      if closest > max_dist_pixel.2.2 then (c, (p.r.val, p.g.val, p.b.val), closest)
      else max_dist_pixel)
    ((0, 0), (0, 0, 0), 0)

/-- STEP I of `k_means` (clustering/algs.rs): k-means++ seeding. The first
centroid is the randomly picked pixel `first`; each of the remaining `k - 1`
is the `max_dist_pixel_scan` result; the seed maps record each centroid as a
singleton cluster. -/
noncomputable def seedCentroids (img : Image) (k : ℕ) (first : ℕ × ℕ) :
    List Centroid × KState :=
  let p := img.pix first
  (List.range (k - 1)).foldl
    (fun acc cluster_id =>
      let m := max_dist_pixel_scan img acc.1
      (acc.1 ++ [⟨m.1, m.2.1.1, m.2.1.2.1, m.2.1.2.2⟩],
       { cluster_lookup := fun c => if c = m.1 then some (cluster_id + 1)
           else acc.2.cluster_lookup c,
         pixel_clusters := fun i => if i = cluster_id + 1 then [m.1]
           else acc.2.pixel_clusters i }))
    ([⟨first, p.r.val, p.g.val, p.b.val⟩],
     { cluster_lookup := fun c => if c = first then some 0 else none,
       pixel_clusters := fun i => if i = 0 then [first] else [] })

/-- `Movement` (clustering/algs.rs): a pixel and the cluster it moves to. -/
structure Movement where
  coords : ℕ × ℕ
  cluster_to : ℕ

/-- The assignment map of a Lloyd iteration: the index (by `position`) of the
first centroid whose coordinates equal the tracked minimum-distance centroid
coordinates, the minimum found by a strict-`<` scan from `f32::MAX`. -/
noncomputable def assignMovement (centroids : List Centroid) (c : ℕ × ℕ) (p : Rgba) :
    Movement :=
  let m := centroids.foldl
    (fun (acc : ℝ × (ℕ × ℕ)) cc =>
      let dist := euclidean_dist p.r.val p.g.val p.b.val cc.r cc.g cc.b
      if dist < acc.1 then (dist, cc.coords) else acc)
    (f32MAX, (0, 0))
  { coords := c, cluster_to := centroids.findIdx (fun cc => cc.coords == m.2) }

/-- Applying the movement list to the cleared maps: insert into the lookup and
push onto (or create) the target cluster's member vector. -/
def applyMovements (ms : List Movement) (s : KState) : KState :=
  ms.foldl
    (fun s m =>
      { cluster_lookup := fun c => if c = m.coords then some m.cluster_to
          else s.cluster_lookup c,
        pixel_clusters := fun i => if i = m.cluster_to then s.pixel_clusters m.cluster_to ++ [m.coords]
          else s.pixel_clusters i })
    s

/-- The recentring of one centroid (clustering/algs.rs): mean RGB of its
cluster's members (the mean is truncated to `u8`), then the member closest to
that mean, scanned from `f32::MAX` with the placeholder `(0,0)`/`[0,0,0]`;
also returns this scan's contribution to the iteration's WCSS. -/
noncomputable def recentre_one (img : Image) (s : KState) (coords : ℕ × ℕ) : Centroid × ℝ :=
  let centroid_cluster_id := (s.cluster_lookup coords).getD 0
  let members := s.pixel_clusters centroid_cluster_id
  let r_sum := (members.map (fun c => (img.pix c).r.val)).sum
  let g_sum := (members.map (fun c => (img.pix c).g.val)).sum
  let b_sum := (members.map (fun c => (img.pix c).b.val)).sum
  let cl_len := members.length
  let r_mean : ℝ := (r_sum : ℝ) / (cl_len : ℝ)
  let g_mean : ℝ := (g_sum : ℝ) / (cl_len : ℝ)
  let b_mean : ℝ := (b_sum : ℝ) / (cl_len : ℝ)
  let scan := members.foldl
    (fun (acc : ℝ × ((ℕ × ℕ) × (ℕ × ℕ × ℕ)) × ℝ) c =>
      let p := img.pix c
      let dist := euclidean_dist p.r.val p.g.val p.b.val ⌊r_mean⌋₊ ⌊g_mean⌋₊ ⌊b_mean⌋₊
      let wcss := acc.2.2 + dist
      if dist < acc.1 then (dist, (c, (p.r.val, p.g.val, p.b.val)), wcss)
      else (acc.1, acc.2.1, wcss))
    (f32MAX, ((0, 0), (0, 0, 0)), 0)
  (⟨scan.2.1.1, scan.2.1.2.1, scan.2.1.2.2.1, scan.2.1.2.2.2⟩, scan.2.2)

/-- The recentring step of a Lloyd iteration: map `recentre_one` over the
centroid list; the iteration's WCSS is the sum of the per-scan contributions
(the source accumulates them into one mutable `new_wcss`). -/
noncomputable def recentre (img : Image) (s : KState) (centroids : List Centroid) :
    List Centroid × ℝ :=
  let pairs := centroids.map (fun cc => recentre_one img s cc.coords)
  (pairs.map (fun pr => pr.1), (pairs.map (fun pr => pr.2)).sum)

/-- The convergence check of `k_means` (clustering/algs.rs): the double loop
over the pixel grid returns `true` exactly when old and new lookup agree (as
`Option`s) at every grid coordinate. -/
def convergedCheck (img : Image) (old_lookup new_lookup : ℕ × ℕ → Option ℕ) : Bool :=
  decide (∀ c ∈ coordsList img, old_lookup c = new_lookup c)

/-- `MAX_CYCLES` (clustering/algs.rs). -/
def MAX_CYCLES : ℕ := 30

/-- The oscillation guard of `k_means` (clustering/algs.rs): once at least
`MAX_CYCLES` WCSS values exist and the last is below the one before it, split
the trailing `MAX_CYCLES` values by parity of their offset from the end and
declare convergence when each half is constant. -/
noncomputable def cycleCheck (wcss_history : List ℝ) : Bool :=
  let wcslen := wcss_history.length
  if wcslen ≥ MAX_CYCLES ∧ wcss_history.getD (wcslen - 1) 0 < wcss_history.getD (wcslen - 2) 0 then
    let list_a := ((List.range MAX_CYCLES).filter (fun i => i % 2 = 0)).map
      (fun i => wcss_history.getD (wcslen - 1 - i) 0)
    let list_b := ((List.range MAX_CYCLES).filter (fun i => i % 2 = 1)).map
      (fun i => wcss_history.getD (wcslen - 1 - i) 0)
    decide (∀ wcss ∈ list_a, wcss = list_a.getD 0 0) &&
      decide (∀ wcss ∈ list_b, wcss = list_b.getD 0 0)
  else false

/-- STEP II of `k_means`: one `while !converged` loop, with explicit fuel;
`none` models a run of the loop that has not exited within `fuel` iterations.
Each iteration clears the maps, applies the fresh assignment, recentres (which
yields the iteration's WCSS), and exits when the assignment is stable or the
oscillation guard fires. -/
noncomputable def kMeansLoop (img : Image) (fuel : ℕ) (centroids : List Centroid)
    (s : KState) (wcss_history : List ℝ) : Option KState :=
  match fuel with
  | 0 => none
  | fuel + 1 =>
    let old_lookup := s.cluster_lookup
    let movement_list := (coordsList img).map (fun c => assignMovement centroids c (img.pix c))
    let s' := applyMovements movement_list emptyKState
    let rec_result := recentre img s' centroids
    let wcss_history' := wcss_history ++ [rec_result.2]
    let converged := convergedCheck img old_lookup s'.cluster_lookup || cycleCheck wcss_history'
    if converged then some s' else kMeansLoop img fuel rec_result.1 s' wcss_history'

/-- One candidate `k` of `k_means`: seed, then iterate Lloyd steps. The
previous candidate's maps are cleared before seeding, so the candidate depends
on no earlier state. -/
noncomputable def kMeansForK (img : Image) (k : ℕ) (first_pick : ℕ × ℕ) (fuel : ℕ) :
    Option KState :=
  let seeded := seedCentroids img k first_pick
  kMeansLoop img fuel seeded.1 seeded.2 []

/-- `k_means` (clustering/algs.rs): run the candidates `k = 2, ..., max_k` in
order (each erasing the previous candidate's maps) and store whatever maps the
last candidate leaves behind. `rand_pick k` is the random first centroid of
candidate `k`; for `max_k < 2` the candidate loop body never runs and the
still-empty maps are stored. -/
noncomputable def kMeans (img : Image) (max_k : ℕ) (rand_pick : ℕ → ℕ × ℕ) (fuel : ℕ) :
    Option KState :=
  (List.range' 2 (max_k - 1)).foldlM
    (fun _ k => kMeansForK img k (rand_pick k) fuel) emptyKState

/-- The partition invariant for the maps a k-means run stores. -/
def KPartition (img : Image) (s : KState) : Prop :=
  (∀ c ∈ coordsList img, ∃ i, s.cluster_lookup c = some i ∧ c ∈ s.pixel_clusters i) ∧
  (∀ (c : ℕ × ℕ) (i j : ℕ), c ∈ s.pixel_clusters i → c ∈ s.pixel_clusters j → i = j) ∧
  (∀ (i : ℕ) (c : ℕ × ℕ), c ∈ s.pixel_clusters i → c ∈ coordsList img)

/-- The 2×2 image of the spec's concrete scenario: Red(255,0,0,255) at (0,0),
Blue(0,0,255,255) at (1,0), Yellow(255,255,0,255) at (0,1) and fully
transparent Green(0,0,255,0) at (1,1). -/
def scenarioImage : Image :=
  { width := 2
    height := 2
    pix := fun c =>
      if c = (0, 0) then ⟨255, 0, 0, 255⟩
      else if c = (1, 0) then ⟨0, 0, 255, 255⟩
      else if c = (0, 1) then ⟨255, 255, 0, 255⟩
      else ⟨0, 0, 255, 0⟩ }

/-- A 1×1 image holding a single opaque black pixel. -/
def black1x1 : Image :=
  { width := 1, height := 1, pix := fun _ => ⟨0, 0, 0, 255⟩ }

/-- A 2-wide, 1-high image of two opaque black pixels. -/
def black2x1 : Image :=
  { width := 2, height := 1, pix := fun _ => ⟨0, 0, 0, 255⟩ }

/-- A 2-wide, 1-high image with an opaque black pixel at (0,0) and an opaque
white pixel at (1,0). -/
def blackWhite2x1 : Image :=
  { width := 2, height := 1,
    pix := fun c => if c = (0, 0) then ⟨0, 0, 0, 255⟩ else ⟨255, 255, 255, 255⟩ }

/-- The maps every converged k-means iteration produces on `black1x1`: the one
pixel (0,0) sits alone in cluster 0. -/
def kFinal1x1 : KState := applyMovements [⟨(0, 0), 0⟩] emptyKState

theorem fin_val_le_255 (x : Fin 256) : (x.val : ℝ) ≤ 255 := by
  have h := x.isLt
  exact_mod_cast Nat.le_of_lt_succ h

theorem fin_val_nonneg (x : Fin 256) : (0 : ℝ) ≤ (x.val : ℝ) := by positivity

theorem sq_diff_le_65025 (x y : Fin 256) : ((x.val : ℝ) - (y.val : ℝ)) ^ 2 ≤ 65025 := by
  have hx := fin_val_le_255 x
  have hy := fin_val_le_255 y
  have hx0 := fin_val_nonneg x
  have hy0 := fin_val_nonneg y
  nlinarith

theorem alpha_only_dist_nonneg (x y : Fin 256) : 0 ≤ alpha_only_dist x y := by
  unfold alpha_only_dist
  positivity

theorem alpha_only_dist_le_one (x y : Fin 256) : alpha_only_dist x y ≤ 1 := by
  unfold alpha_only_dist
  rw [div_le_one (by norm_num)]
  have hx := x.isLt
  have hy := y.isLt
  have h : ((x.val : ℤ) - (y.val : ℤ)).natAbs ≤ 255 := by omega
  exact_mod_cast h

theorem alpha_only_dist_self (x : Fin 256) : alpha_only_dist x x = 0 := by
  unfold alpha_only_dist
  simp

theorem alpha_only_dist_comm (x y : Fin 256) : alpha_only_dist x y = alpha_only_dist y x := by
  unfold alpha_only_dist
  rw [show ((x.val : ℤ) - (y.val : ℤ)) = -((y.val : ℤ) - (x.val : ℤ)) by ring, Int.natAbs_neg]

theorem euclidean_nonneg (pixel_a pixel_b : Rgba) : 0 ≤ euclidean pixel_a pixel_b := by
  unfold euclidean
  dsimp only
  split
  · exact Real.sqrt_nonneg _
  · exact alpha_only_dist_nonneg _ _

theorem euclidean_le_one (pixel_a pixel_b : Rgba) : euclidean pixel_a pixel_b ≤ 1 := by
  unfold euclidean
  dsimp only
  split
  · rw [Real.sqrt_le_one, div_le_one (by norm_num)]
    have h1 := sq_diff_le_65025 pixel_a.r pixel_b.r
    have h2 := sq_diff_le_65025 pixel_a.g pixel_b.g
    have h3 := sq_diff_le_65025 pixel_a.b pixel_b.b
    linarith
  · exact alpha_only_dist_le_one _ _

theorem euclidean_self (pixel_a : Rgba) (h : pixel_a.a.val ≠ 0) :
    euclidean pixel_a pixel_a = 0 := by
  unfold euclidean
  dsimp only
  rw [if_pos ⟨h, h⟩]
  simp

theorem euclidean_comm (pixel_a pixel_b : Rgba) :
    euclidean pixel_a pixel_b = euclidean pixel_b pixel_a := by
  unfold euclidean
  dsimp only
  by_cases h : pixel_a.a.val ≠ 0 ∧ pixel_b.a.val ≠ 0
  · rw [if_pos h, if_pos ⟨h.2, h.1⟩]
    ring_nf
  · rw [if_neg h, if_neg (fun h' => h ⟨h'.2, h'.1⟩)]
    exact alpha_only_dist_comm _ _

theorem redmean_nonneg (pixel_a pixel_b : Rgba) : 0 ≤ redmean pixel_a pixel_b := by
  unfold redmean
  dsimp only
  split
  · exact Real.sqrt_nonneg _
  · exact alpha_only_dist_nonneg _ _

theorem redmean_le_one (pixel_a pixel_b : Rgba) : redmean pixel_a pixel_b ≤ 1 := by
  unfold redmean
  dsimp only
  split
  · rw [Real.sqrt_le_one, div_le_one (by norm_num)]
    have h1 := sq_diff_le_65025 pixel_a.r pixel_b.r
    have h2 := sq_diff_le_65025 pixel_a.g pixel_b.g
    have h3 := sq_diff_le_65025 pixel_a.b pixel_b.b
    have har := fin_val_le_255 pixel_a.r
    have hbr := fin_val_le_255 pixel_b.r
    have har0 := fin_val_nonneg pixel_a.r
    have hbr0 := fin_val_nonneg pixel_b.r
    have hr2 := sq_nonneg ((pixel_a.r.val : ℝ) - (pixel_b.r.val : ℝ))
    have hb2 := sq_nonneg ((pixel_a.b.val : ℝ) - (pixel_b.b.val : ℝ))
    have ha : 0 ≤ (2 + ((pixel_a.r.val : ℝ) + (pixel_b.r.val : ℝ)) / 2 / 255) *
        (65025 - ((pixel_a.r.val : ℝ) - (pixel_b.r.val : ℝ)) ^ 2) := by
      apply mul_nonneg <;> linarith
    have hb : 0 ≤ (2 + (255 - ((pixel_a.r.val : ℝ) + (pixel_b.r.val : ℝ)) / 2) / 255) *
        (65025 - ((pixel_a.b.val : ℝ) - (pixel_b.b.val : ℝ)) ^ 2) := by
      apply mul_nonneg <;> linarith
    nlinarith [ha, hb, h2]
  · exact alpha_only_dist_le_one _ _

theorem redmean_self (pixel_a : Rgba) (h : pixel_a.a.val ≠ 0) :
    redmean pixel_a pixel_a = 0 := by
  unfold redmean
  dsimp only
  rw [if_pos ⟨h, h⟩]
  simp

theorem redmean_comm (pixel_a pixel_b : Rgba) :
    redmean pixel_a pixel_b = redmean pixel_b pixel_a := by
  unfold redmean
  dsimp only
  by_cases h : pixel_a.a.val ≠ 0 ∧ pixel_b.a.val ≠ 0
  · rw [if_pos h, if_pos ⟨h.2, h.1⟩]
    ring_nf
  · rw [if_neg h, if_neg (fun h' => h ⟨h'.2, h'.1⟩)]
    exact alpha_only_dist_comm _ _

/-- C3: for every pair of RGBA pixels, both the Euclidean and the Redmean
distance lie in `[0, 1]`; the distance of a pixel to itself is 0 whenever its
alpha is non-zero; and both distances are symmetric. -/
theorem pixeldist_bounds_refl_symm :
    ∀ pixel_a pixel_b : Rgba,
      (0 ≤ euclidean pixel_a pixel_b ∧ euclidean pixel_a pixel_b ≤ 1) ∧
      (0 ≤ redmean pixel_a pixel_b ∧ redmean pixel_a pixel_b ≤ 1) ∧
      (pixel_a.a.val ≠ 0 → euclidean pixel_a pixel_a = 0 ∧ redmean pixel_a pixel_a = 0) ∧
      euclidean pixel_a pixel_b = euclidean pixel_b pixel_a ∧
      redmean pixel_a pixel_b = redmean pixel_b pixel_a := by
  intro pixel_a pixel_b
  exact ⟨⟨euclidean_nonneg _ _, euclidean_le_one _ _⟩,
    ⟨redmean_nonneg _ _, redmean_le_one _ _⟩,
    fun h => ⟨euclidean_self _ h, redmean_self _ h⟩,
    euclidean_comm _ _, redmean_comm _ _⟩

/-- C10: whenever at least one of the two pixels has alpha 0, both algorithms
return the alpha-only distance `|Aa - Ab| / 255`, ignoring the colour
channels; in particular when both alphas are 0 both algorithms return 0. -/
theorem pixeldist_alpha_zero :
    ∀ pixel_a pixel_b : Rgba,
      ((pixel_a.a.val = 0 ∨ pixel_b.a.val = 0) →
        euclidean pixel_a pixel_b =
          ((((pixel_a.a.val : ℤ) - (pixel_b.a.val : ℤ)).natAbs : ℕ) : ℝ) / 255 ∧
        redmean pixel_a pixel_b =
          ((((pixel_a.a.val : ℤ) - (pixel_b.a.val : ℤ)).natAbs : ℕ) : ℝ) / 255) ∧
      (pixel_a.a.val = 0 → pixel_b.a.val = 0 →
        euclidean pixel_a pixel_b = 0 ∧ redmean pixel_a pixel_b = 0) := by
  intro pixel_a pixel_b
  have hcond : pixel_a.a.val = 0 ∨ pixel_b.a.val = 0 →
      ¬(pixel_a.a.val ≠ 0 ∧ pixel_b.a.val ≠ 0) := by
    rintro (h | h) ⟨h1, h2⟩
    · exact h1 h
    · exact h2 h
  constructor
  · intro h
    constructor
    · unfold euclidean
      dsimp only
      rw [if_neg (hcond h)]
      rfl
    · unfold redmean
      dsimp only
      rw [if_neg (hcond h)]
      rfl
  · intro ha hb
    have h1 : euclidean pixel_a pixel_b =
        ((((pixel_a.a.val : ℤ) - (pixel_b.a.val : ℤ)).natAbs : ℕ) : ℝ) / 255 := by
      unfold euclidean
      dsimp only
      rw [if_neg (hcond (Or.inl ha))]
      rfl
    have h2 : redmean pixel_a pixel_b =
        ((((pixel_a.a.val : ℤ) - (pixel_b.a.val : ℤ)).natAbs : ℕ) : ℝ) / 255 := by
      unfold redmean
      dsimp only
      rw [if_neg (hcond (Or.inl ha))]
      rfl
    rw [h1, h2, ha, hb]
    norm_num

theorem coords_nodup (img : Image) : (coordsList img).Nodup := by
  unfold coordsList
  rw [List.nodup_flatMap]
  constructor
  · intro y _
    refine List.Nodup.map ?_ (List.nodup_range _)
    intro x₁ x₂ h
    exact (Prod.mk.injEq _ _ _ _ ▸ h).1
  · refine List.Pairwise.imp ?_ (List.pairwise_lt_range img.height)
    intro y₁ y₂ hlt t ht₁ ht₂
    obtain ⟨x₁, -, rfl⟩ := List.mem_map.mp ht₁
    obtain ⟨x₂, -, h₂⟩ := List.mem_map.mp ht₂
    exact absurd ((Prod.mk.injEq _ _ _ _ ▸ h₂).2) (Nat.ne_of_gt hlt)

theorem initFold_clusters_lo (l : List (ℕ × ℕ)) :
    ∀ (p : AggloState × ℕ) (i : ℕ), i < p.2 →
      ((l.foldl initFoldStep p).1).pixel_clusters i = p.1.pixel_clusters i := by
  induction l with
  | nil => intro p i _; rfl
  | cons c₀ tl ih =>
    intro p i hi
    have h := ih (initFoldStep p c₀) i (Nat.lt_succ_of_lt hi)
    simp only [List.foldl_cons]
    rw [h]
    simp only [initFoldStep]
    rw [if_neg (Nat.ne_of_lt hi)]

theorem initFold_lookup_notmem (l : List (ℕ × ℕ)) :
    ∀ (p : AggloState × ℕ) (c : ℕ × ℕ), c ∉ l →
      ((l.foldl initFoldStep p).1).cluster_lookup c = p.1.cluster_lookup c := by
  induction l with
  | nil => intro p c _; rfl
  | cons c₀ tl ih =>
    intro p c hc
    have h := ih (initFoldStep p c₀) c (fun h => hc (List.mem_cons_of_mem _ h))
    simp only [List.foldl_cons]
    rw [h]
    simp only [initFoldStep]
    rw [if_neg (show ¬c = c₀ from fun h => hc (by rw [h]; exact List.mem_cons_self _ _))]

theorem initFold_mem (l : List (ℕ × ℕ)) :
    ∀ (p : AggloState × ℕ), l.Nodup → ∀ c ∈ l,
      c ∈ ((l.foldl initFoldStep p).1).pixel_clusters
        (((l.foldl initFoldStep p).1).cluster_lookup c) := by
  induction l with
  | nil => intro p _ c hc; exact absurd hc (List.not_mem_nil _)
  | cons c₀ tl ih =>
    intro p hnd c hc
    have hc₀tl : c₀ ∉ tl := (List.nodup_cons.mp hnd).1
    simp only [List.foldl_cons]
    rcases List.mem_cons.mp hc with heq | hctl
    · subst heq
      rw [initFold_lookup_notmem tl _ _ hc₀tl]
      have hlk : (initFoldStep p c).1.cluster_lookup c = p.2 := by
        simp [initFoldStep]
      rw [hlk, initFold_clusters_lo tl (initFoldStep p c) p.2 (Nat.lt_succ_self _)]
      simp [initFoldStep]
    · exact ih _ (List.nodup_cons.mp hnd).2 c hctl

theorem initFold_uniq (l : List (ℕ × ℕ)) :
    ∀ (p : AggloState × ℕ), l.Nodup →
      (∀ i, p.2 ≤ i → p.1.pixel_clusters i = []) →
      (∀ c ∈ l, ∀ i, c ∉ p.1.pixel_clusters i) →
      (∀ (c : ℕ × ℕ) (i j : ℕ), c ∈ p.1.pixel_clusters i → c ∈ p.1.pixel_clusters j → i = j) →
      ∀ (c : ℕ × ℕ) (i j : ℕ),
        c ∈ ((l.foldl initFoldStep p).1).pixel_clusters i →
        c ∈ ((l.foldl initFoldStep p).1).pixel_clusters j → i = j := by
  induction l with
  | nil => intro p _ _ _ h3; exact h3
  | cons c₀ tl ih =>
    intro p hnd h1 h2 h3
    have hc₀tl : c₀ ∉ tl := (List.nodup_cons.mp hnd).1
    simp only [List.foldl_cons]
    refine ih _ (List.nodup_cons.mp hnd).2 ?_ ?_ ?_
    · intro i hi
      have hi' : p.2 + 1 ≤ i := hi
      show (if i = p.2 then [c₀] else p.1.pixel_clusters i) = []
      rw [if_neg (by omega)]
      exact h1 i (by omega)
    · intro c hctl i hmem
      simp only [initFoldStep] at hmem
      by_cases hin : i = p.2
      · rw [if_pos hin] at hmem
        have heq : c = c₀ := List.mem_singleton.mp hmem
        exact hc₀tl (heq ▸ hctl)
      · rw [if_neg hin] at hmem
        exact h2 c (List.mem_cons_of_mem _ hctl) i hmem
    · intro c i j hi hj
      simp only [initFoldStep] at hi hj
      by_cases hin : i = p.2
      · rw [if_pos hin] at hi
        have heq : c = c₀ := List.mem_singleton.mp hi
        by_cases hjn : j = p.2
        · rw [hin, hjn]
        · rw [if_neg hjn] at hj
          exact absurd (heq ▸ hj) (h2 c₀ (List.mem_cons_self _ _) j)
      · rw [if_neg hin] at hi
        by_cases hjn : j = p.2
        · rw [if_pos hjn] at hj
          have heq : c = c₀ := List.mem_singleton.mp hj
          exact absurd (heq ▸ hi) (h2 c₀ (List.mem_cons_self _ _) i)
        · rw [if_neg hjn] at hj
          exact h3 c i j hi hj

theorem initFold_subset (l : List (ℕ × ℕ)) (P : ℕ × ℕ → Prop) :
    ∀ (p : AggloState × ℕ),
      (∀ (i : ℕ) (c : ℕ × ℕ), c ∈ p.1.pixel_clusters i → P c) →
      (∀ c ∈ l, P c) →
      ∀ (i : ℕ) (c : ℕ × ℕ), c ∈ ((l.foldl initFoldStep p).1).pixel_clusters i → P c := by
  induction l with
  | nil => intro p h _; exact h
  | cons c₀ tl ih =>
    intro p h hl
    simp only [List.foldl_cons]
    refine ih _ ?_ (fun c hc => hl c (List.mem_cons_of_mem _ hc))
    intro i c hmem
    simp only [initFoldStep] at hmem
    by_cases hin : i = p.2
    · rw [if_pos hin] at hmem
      have heq : c = c₀ := List.mem_singleton.mp hmem
      rw [heq]
      exact hl c₀ (List.mem_cons_self _ _)
    · rw [if_neg hin] at hmem
      exact h i c hmem

theorem initAggloState_partition (img : Image) : AggloPartition img (initAggloState img) := by
  refine ⟨?_, ?_, ?_⟩
  · intro c hc
    exact initFold_mem (coordsList img) _ (coords_nodup img) c hc
  · exact initFold_uniq (coordsList img) _ (coords_nodup img)
      (fun _ _ => rfl) (fun _ _ _ h => (List.not_mem_nil _) h)
      (fun c i j hi _ => absurd hi (List.not_mem_nil _))
  · intro i c
    exact initFold_subset (coordsList img) (fun c => c ∈ coordsList img) _
      (fun _ c hc => absurd hc (List.not_mem_nil _)) (fun _ h => h) i c

theorem consume_lookup (predator_cluster_id prey_cluster_id : ℕ) (s : AggloState) (c : ℕ × ℕ) :
    (consume_cluster predator_cluster_id prey_cluster_id s).cluster_lookup c =
      if c ∈ s.pixel_clusters prey_cluster_id then predator_cluster_id
      else s.cluster_lookup c := rfl

theorem consume_clusters_mem (predator_cluster_id prey_cluster_id : ℕ) (s : AggloState)
    (hne : predator_cluster_id ≠ prey_cluster_id) (c : ℕ × ℕ) (i : ℕ) :
    (c ∈ (consume_cluster predator_cluster_id prey_cluster_id s).pixel_clusters i ↔
      i ≠ prey_cluster_id ∧ (c ∈ s.pixel_clusters i ∨
        (i = predator_cluster_id ∧ c ∈ s.pixel_clusters prey_cluster_id))) := by
  unfold consume_cluster
  dsimp only
  by_cases hip : i = predator_cluster_id
  · subst hip
    rw [if_pos rfl, if_neg hne]
    simp only [List.mem_append]
    tauto
  · rw [if_neg hip]
    by_cases hiq : i = prey_cluster_id
    · rw [if_pos hiq]
      simp [hiq]
    · rw [if_neg hiq]
      simp [hip, hiq]

theorem consume_preserves (img : Image) (s : AggloState)
    (predator_cluster_id prey_cluster_id : ℕ) (hne : predator_cluster_id ≠ prey_cluster_id)
    (h : AggloPartition img s) :
    AggloPartition img (consume_cluster predator_cluster_id prey_cluster_id s) := by
  obtain ⟨hmem, huniq, hsub⟩ := h
  refine ⟨?_, ?_, ?_⟩
  · intro c hc
    rw [consume_lookup]
    by_cases hpm : c ∈ s.pixel_clusters prey_cluster_id
    · rw [if_pos hpm, consume_clusters_mem _ _ _ hne]
      exact ⟨hne, Or.inr ⟨rfl, hpm⟩⟩
    · rw [if_neg hpm, consume_clusters_mem _ _ _ hne]
      refine ⟨?_, Or.inl (hmem c hc)⟩
      intro hlp
      exact hpm (hlp ▸ hmem c hc)
  · intro c i j hi hj
    rw [consume_clusters_mem _ _ _ hne] at hi hj
    obtain ⟨hip, hi⟩ := hi
    obtain ⟨hjp, hj⟩ := hj
    rcases hi with hi | ⟨hi', him⟩ <;> rcases hj with hj | ⟨hj', hjm⟩
    · exact huniq c i j hi hj
    · exact absurd (huniq c i prey_cluster_id hi hjm) hip
    · exact absurd (huniq c j prey_cluster_id hj him) hjp
    · rw [hi', hj']
  · intro i c hc
    rw [consume_clusters_mem _ _ _ hne] at hc
    rcases hc.2 with h | ⟨-, h⟩
    · exact hsub i c h
    · exact hsub prey_cluster_id c h

theorem aggloStep_preserves (img : Image) (threshold : ℝ) (s : AggloState)
    (factor : PixeldistFactor) (h : AggloPartition img s) :
    AggloPartition img (aggloStep threshold s factor) := by
  unfold aggloStep
  dsimp only
  split
  · next hcond =>
    split
    · exact consume_preserves img s _ _ hcond.1 h
    · exact consume_preserves img s _ _ (Ne.symm hcond.1) h
  · exact h

theorem aggloFold_preserves (img : Image) (threshold : ℝ) :
    ∀ (factors : List PixeldistFactor) (s : AggloState), AggloPartition img s →
      AggloPartition img (factors.foldl (aggloStep threshold) s) := by
  intro factors
  induction factors with
  | nil => intro s h; exact h
  | cons f tl ih =>
    intro s h
    exact ih _ (aggloStep_preserves img threshold s f h)

theorem agglomerative_partition (img : Image) (alg : PixeldistAlg) (tolerance : ℚ)
    (s : AggloState) (h : agglomerative img alg tolerance = some s) :
    AggloPartition img s := by
  unfold agglomerative at h
  dsimp only at h
  rcases hm : nth_percentile_dist (build_factors img alg) tolerance with - | θ
  · rw [hm] at h
    exact absurd h (by simp)
  · rw [hm] at h
    have hs : s = (build_factors img alg).foldl (aggloStep θ) (initAggloState img) := by
      injection h.symm
    rw [hs]
    exact aggloFold_preserves img θ _ _ (initAggloState_partition img)

theorem assignMovement_coords (centroids : List Centroid) (c : ℕ × ℕ) (p : Rgba) :
    (assignMovement centroids c p).coords = c := rfl

theorem applyMovements_cons (m : Movement) (ms : List Movement) (s : KState) :
    applyMovements (m :: ms) s = applyMovements ms
      { cluster_lookup := fun c => if c = m.coords then some m.cluster_to
          else s.cluster_lookup c,
        pixel_clusters := fun i => if i = m.cluster_to then s.pixel_clusters m.cluster_to ++ [m.coords]
          else s.pixel_clusters i } := rfl

theorem applyMovements_lookup_notmem (ms : List Movement) :
    ∀ (s : KState) (c : ℕ × ℕ), (∀ m ∈ ms, c ≠ m.coords) →
      (applyMovements ms s).cluster_lookup c = s.cluster_lookup c := by
  induction ms with
  | nil => intro s c _; rfl
  | cons m tl ih =>
    intro s c hc
    rw [applyMovements_cons, ih _ c (fun m' hm' => hc m' (List.mem_cons_of_mem _ hm'))]
    exact if_neg (hc m (List.mem_cons_self _ _))

theorem applyMovements_clusters_notmem (ms : List Movement) :
    ∀ (s : KState) (c : ℕ × ℕ) (i : ℕ), (∀ m ∈ ms, c ≠ m.coords) →
      (c ∈ (applyMovements ms s).pixel_clusters i ↔ c ∈ s.pixel_clusters i) := by
  induction ms with
  | nil => intro s c i _; exact Iff.rfl
  | cons m tl ih =>
    intro s c i hc
    rw [applyMovements_cons, ih _ c i (fun m' hm' => hc m' (List.mem_cons_of_mem _ hm'))]
    dsimp only
    by_cases hi : i = m.cluster_to
    · rw [if_pos hi, hi]
      simp only [List.mem_append, List.mem_singleton]
      have := hc m (List.mem_cons_self _ _)
      tauto
    · rw [if_neg hi]

theorem applyMovements_mem (ms : List Movement) :
    ∀ (s : KState), (ms.map Movement.coords).Nodup → ∀ m ∈ ms,
      (applyMovements ms s).cluster_lookup m.coords = some m.cluster_to ∧
      m.coords ∈ (applyMovements ms s).pixel_clusters m.cluster_to := by
  induction ms with
  | nil => intro s _ m hm; exact absurd hm (List.not_mem_nil _)
  | cons m₀ tl ih =>
    intro s hnd m hm
    rw [List.map_cons, List.nodup_cons] at hnd
    have hne : ∀ m' ∈ tl, m₀.coords ≠ m'.coords := by
      intro m' hm' h
      exact hnd.1 (h ▸ List.mem_map_of_mem Movement.coords hm')
    rcases List.mem_cons.mp hm with heq | hmtl
    · subst heq
      rw [applyMovements_cons]
      constructor
      · rw [applyMovements_lookup_notmem tl _ _ hne]
        exact if_pos rfl
      · rw [applyMovements_clusters_notmem tl _ _ _ hne]
        dsimp only
        rw [if_pos rfl]
        simp
    · exact ih _ hnd.2 m hmtl

theorem applyMovements_uniq (ms : List Movement) :
    ∀ (s : KState),
      (∀ m ∈ ms, ∀ i, m.coords ∉ s.pixel_clusters i) →
      (∀ (c : ℕ × ℕ) (i j : ℕ), c ∈ s.pixel_clusters i → c ∈ s.pixel_clusters j → i = j) →
      (ms.map Movement.coords).Nodup →
      ∀ (c : ℕ × ℕ) (i j : ℕ),
        c ∈ (applyMovements ms s).pixel_clusters i →
        c ∈ (applyMovements ms s).pixel_clusters j → i = j := by
  induction ms with
  | nil => intro s _ h3 _; exact h3
  | cons m₀ tl ih =>
    intro s h2 h3 hnd
    rw [List.map_cons, List.nodup_cons] at hnd
    have hne : ∀ m' ∈ tl, m₀.coords ≠ m'.coords := by
      intro m' hm' h
      exact hnd.1 (h ▸ List.mem_map_of_mem Movement.coords hm')
    have hmem : ∀ (c : ℕ × ℕ) (i : ℕ),
        c ∈ (if i = m₀.cluster_to then s.pixel_clusters m₀.cluster_to ++ [m₀.coords]
          else s.pixel_clusters i) ↔
        (c ∈ s.pixel_clusters i ∨ (i = m₀.cluster_to ∧ c = m₀.coords)) := by
      intro c i
      by_cases hi : i = m₀.cluster_to
      · rw [if_pos hi, hi]
        simp only [List.mem_append, List.mem_singleton]
        tauto
      · rw [if_neg hi]
        tauto
    rw [applyMovements_cons]
    refine ih _ ?_ ?_ hnd.2
    · intro m hmtl i hc
      dsimp only at hc
      rw [hmem] at hc
      rcases hc with hc | ⟨-, hc⟩
      · exact h2 m (List.mem_cons_of_mem _ hmtl) i hc
      · exact hnd.1 (hc ▸ List.mem_map_of_mem Movement.coords hmtl)
    · intro c i j hi hj
      dsimp only at hi hj
      rw [hmem] at hi hj
      rcases hi with hi | ⟨hi', hceq⟩ <;> rcases hj with hj | ⟨hj', hceq'⟩
      · exact h3 c i j hi hj
      · exact absurd (hceq' ▸ hi) (h2 m₀ (List.mem_cons_self _ _) i)
      · exact absurd (hceq ▸ hj) (h2 m₀ (List.mem_cons_self _ _) j)
      · rw [hi', hj']

theorem applyMovements_subset (ms : List Movement) (P : ℕ × ℕ → Prop) :
    ∀ (s : KState),
      (∀ (i : ℕ) (c : ℕ × ℕ), c ∈ s.pixel_clusters i → P c) →
      (∀ m ∈ ms, P m.coords) →
      ∀ (i : ℕ) (c : ℕ × ℕ), c ∈ (applyMovements ms s).pixel_clusters i → P c := by
  induction ms with
  | nil => intro s h _; exact h
  | cons m₀ tl ih =>
    intro s h hl
    rw [applyMovements_cons]
    refine ih _ ?_ (fun m hm => hl m (List.mem_cons_of_mem _ hm))
    intro i c hc
    dsimp only at hc
    by_cases hi : i = m₀.cluster_to
    · rw [if_pos hi] at hc
      rcases List.mem_append.mp hc with hc | hc
      · exact h _ c hc
      · rw [List.mem_singleton.mp hc]
        exact hl m₀ (List.mem_cons_self _ _)
    · rw [if_neg hi] at hc
      exact h i c hc

theorem movementList_partition (img : Image) (centroids : List Centroid) :
    KPartition img (applyMovements
      ((coordsList img).map (fun c => assignMovement centroids c (img.pix c))) emptyKState) := by
  have hkeys : (((coordsList img).map (fun c => assignMovement centroids c (img.pix c))).map
      Movement.coords) = coordsList img := by
    rw [List.map_map]
    have hcomp : (Movement.coords ∘ fun c => assignMovement centroids c (img.pix c)) = id :=
      funext fun c => rfl
    rw [hcomp, List.map_id]
  have hnd : (((coordsList img).map (fun c => assignMovement centroids c (img.pix c))).map
      Movement.coords).Nodup := by
    rw [hkeys]
    exact coords_nodup img
  refine ⟨?_, ?_, ?_⟩
  · intro c hc
    have hm : assignMovement centroids c (img.pix c) ∈
        (coordsList img).map (fun c => assignMovement centroids c (img.pix c)) :=
      List.mem_map_of_mem _ hc
    have h := applyMovements_mem _ emptyKState hnd _ hm
    exact ⟨(assignMovement centroids c (img.pix c)).cluster_to, h.1, h.2⟩
  · exact applyMovements_uniq _ emptyKState
      (fun _ _ i h => absurd h (List.not_mem_nil _))
      (fun c i j hi _ => absurd hi (List.not_mem_nil _)) hnd
  · intro i c
    refine applyMovements_subset _ (fun c => c ∈ coordsList img) emptyKState
      (fun _ c hc => absurd hc (List.not_mem_nil _)) ?_ i c
    intro m hm
    obtain ⟨c', hc', rfl⟩ := List.mem_map.mp hm
    exact hc'

theorem kMeansLoop_partition (img : Image) :
    ∀ (fuel : ℕ) (centroids : List Centroid) (s : KState) (wcss_history : List ℝ)
      (res : KState), kMeansLoop img fuel centroids s wcss_history = some res →
      KPartition img res := by
  intro fuel
  induction fuel with
  | zero => intro centroids s w res h; exact absurd h (by simp [kMeansLoop])
  | succ fuel ih =>
    intro centroids s w res h
    rw [kMeansLoop] at h
    split at h
    · injection h with h'
      rw [← h']
      exact movementList_partition img centroids
    · exact ih _ _ _ res h

theorem kMeansForK_partition (img : Image) (k : ℕ) (first_pick : ℕ × ℕ) (fuel : ℕ)
    (res : KState) (h : kMeansForK img k first_pick fuel = some res) :
    KPartition img res :=
  kMeansLoop_partition img fuel _ _ _ res h

theorem foldlM_option_concat {α β : Type} (f : α → β → Option α) :
    ∀ (l : List β) (b : β) (init res : α),
      (l ++ [b]).foldlM f init = some res → ∃ a, f a b = some res := by
  intro l
  induction l with
  | nil =>
    intro b init res h
    simp only [List.nil_append, List.foldlM_cons, List.foldlM_nil] at h
    rcases hfb : f init b with - | a
    · rw [hfb] at h
      exact absurd h (by simp)
    · rw [hfb] at h
      simp only [Option.bind_eq_bind, Option.some_bind, Option.pure_def] at h
      exact ⟨init, hfb.trans h⟩
  | cons x tl ih =>
    intro b init res h
    simp only [List.cons_append, List.foldlM_cons] at h
    rcases hfx : f init x with - | a
    · rw [hfx] at h
      exact absurd h (by simp)
    · rw [hfx] at h
      simp only [Option.bind_eq_bind, Option.some_bind] at h
      exact ih b a res h

theorem kMeans_foldlM_last (img : Image) (max_k : ℕ) (rand_pick : ℕ → ℕ × ℕ) (fuel : ℕ)
    (res : KState) (hk : 2 ≤ max_k) (h : kMeans img max_k rand_pick fuel = some res) :
    kMeansForK img max_k (rand_pick max_k) fuel = some res := by
  unfold kMeans at h
  have hrange : List.range' 2 (max_k - 1) = List.range' 2 (max_k - 2) ++ [max_k] := by
    have h1 : max_k - 1 = (max_k - 2) + 1 := by omega
    rw [h1, List.range'_concat]
    congr 2
    omega
  rw [hrange] at h
  obtain ⟨a, ha⟩ := foldlM_option_concat _ _ _ _ _ h
  exact ha

/-- C2: after any completed clustering run (agglomerative, or k-means with a
valid `max_k ≥ 2`), the lookup maps every image coordinate to a cluster whose
member list contains it, and every image coordinate lies in exactly one
cluster's member list. -/
theorem clustering_partition_invariant :
    (∀ (img : Image) (alg : PixeldistAlg) (tolerance : ℚ) (s : AggloState),
        agglomerative img alg tolerance = some s →
        (∀ c ∈ coordsList img, c ∈ s.pixel_clusters (s.cluster_lookup c)) ∧
        (∀ c ∈ coordsList img, ∃! i, c ∈ s.pixel_clusters i)) ∧
    (∀ (img : Image) (max_k : ℕ) (rand_pick : ℕ → ℕ × ℕ) (fuel : ℕ) (s : KState),
        2 ≤ max_k → kMeans img max_k rand_pick fuel = some s →
        (∀ c ∈ coordsList img, ∃ i, s.cluster_lookup c = some i ∧ c ∈ s.pixel_clusters i) ∧
        (∀ c ∈ coordsList img, ∃! i, c ∈ s.pixel_clusters i)) := by
  constructor
  · intro img alg tolerance s h
    obtain ⟨hmem, huniq, -⟩ := agglomerative_partition img alg tolerance s h
    refine ⟨hmem, ?_⟩
    intro c hc
    exact ⟨s.cluster_lookup c, hmem c hc, fun j hj => huniq c j _ hj (hmem c hc)⟩
  · intro img max_k rand_pick fuel s hk h
    obtain ⟨hmem, huniq, -⟩ := kMeansForK_partition img max_k (rand_pick max_k) fuel s
      (kMeans_foldlM_last img max_k rand_pick fuel s hk h)
    refine ⟨hmem, ?_⟩
    intro c hc
    obtain ⟨i, -, hi⟩ := hmem c hc
    exact ⟨i, hi, fun j hj => huniq c j i hj hi⟩

/-- C8: with `max_k < 2` (here 0 and 1) the k-means clusterer runs no
candidate at all and silently stores the still-empty lookup and cluster maps —
no error value exists anywhere in its signature, contradicting the claimed
configuration-error signalling. -/
theorem kMeans_small_maxk_silent_empty (img : Image) (rand_pick : ℕ → ℕ × ℕ) (fuel : ℕ) :
    kMeans img 0 rand_pick fuel = some emptyKState ∧
    kMeans img 1 rand_pick fuel = some emptyKState :=
  ⟨rfl, rfl⟩

theorem fin256_val_255 : ((255 : Fin 256) : ℕ) = 255 := rfl

theorem fin256_val_0 : ((0 : Fin 256) : ℕ) = 0 := rfl

theorem get_pixeldist_euclidean (pixel_a pixel_b : Rgba) :
    get_pixeldist PixeldistAlg.Euclidean pixel_a pixel_b = euclidean pixel_a pixel_b := rfl

theorem euclidean_colour_case (pixel_a pixel_b : Rgba) (ha : pixel_a.a.val ≠ 0)
    (hb : pixel_b.a.val ≠ 0) :
    euclidean pixel_a pixel_b = Real.sqrt
      ((((pixel_a.r.val : ℝ) - pixel_b.r.val) ^ 2 + ((pixel_a.g.val : ℝ) - pixel_b.g.val) ^ 2 +
        ((pixel_a.b.val : ℝ) - pixel_b.b.val) ^ 2) / 195075) := by
  unfold euclidean
  dsimp only
  rw [if_pos ⟨ha, hb⟩]

theorem euclidean_transparent (pixel_a pixel_b : Rgba)
    (h : ¬(pixel_a.a.val ≠ 0 ∧ pixel_b.a.val ≠ 0)) :
    euclidean pixel_a pixel_b = alpha_only_dist pixel_a.a pixel_b.a := by
  unfold euclidean
  dsimp only
  rw [if_neg h]

theorem alpha_only_dist_255_0 : alpha_only_dist (255 : Fin 256) (0 : Fin 256) = 1 := by
  unfold alpha_only_dist
  norm_num [fin256_val_255, fin256_val_0]

theorem pd_scenario_RB :
    get_pixeldist PixeldistAlg.Euclidean (scenarioImage.pix (0, 0)) (scenarioImage.pix (1, 0)) =
      Real.sqrt (2 / 3) := by
  rw [show scenarioImage.pix (0, 0) = ⟨255, 0, 0, 255⟩ from rfl,
    show scenarioImage.pix (1, 0) = ⟨0, 0, 255, 255⟩ from rfl, get_pixeldist_euclidean]
  rw [euclidean_colour_case _ _ (by decide) (by decide)]
  congr 1
  norm_num [fin256_val_255, fin256_val_0]

theorem pd_scenario_RG :
    get_pixeldist PixeldistAlg.Euclidean (scenarioImage.pix (0, 0)) (scenarioImage.pix (1, 1)) =
      1 := by
  rw [show scenarioImage.pix (0, 0) = ⟨255, 0, 0, 255⟩ from rfl,
    show scenarioImage.pix (1, 1) = ⟨0, 0, 255, 0⟩ from rfl, get_pixeldist_euclidean]
  rw [euclidean_transparent _ _ (by decide)]
  exact alpha_only_dist_255_0

theorem pd_scenario_RY :
    get_pixeldist PixeldistAlg.Euclidean (scenarioImage.pix (0, 0)) (scenarioImage.pix (0, 1)) =
      Real.sqrt (1 / 3) := by
  rw [show scenarioImage.pix (0, 0) = ⟨255, 0, 0, 255⟩ from rfl,
    show scenarioImage.pix (0, 1) = ⟨255, 255, 0, 255⟩ from rfl, get_pixeldist_euclidean]
  rw [euclidean_colour_case _ _ (by decide) (by decide)]
  congr 1
  norm_num [fin256_val_255, fin256_val_0]

theorem pd_scenario_BG :
    get_pixeldist PixeldistAlg.Euclidean (scenarioImage.pix (1, 0)) (scenarioImage.pix (1, 1)) =
      1 := by
  rw [show scenarioImage.pix (1, 0) = ⟨0, 0, 255, 255⟩ from rfl,
    show scenarioImage.pix (1, 1) = ⟨0, 0, 255, 0⟩ from rfl, get_pixeldist_euclidean]
  rw [euclidean_transparent _ _ (by decide)]
  exact alpha_only_dist_255_0

theorem pd_scenario_BY :
    get_pixeldist PixeldistAlg.Euclidean (scenarioImage.pix (1, 0)) (scenarioImage.pix (0, 1)) =
      1 := by
  rw [show scenarioImage.pix (1, 0) = ⟨0, 0, 255, 255⟩ from rfl,
    show scenarioImage.pix (0, 1) = ⟨255, 255, 0, 255⟩ from rfl, get_pixeldist_euclidean]
  rw [euclidean_colour_case _ _ (by decide) (by decide), ← Real.sqrt_one]
  congr 1
  norm_num [fin256_val_255, fin256_val_0]

theorem pd_scenario_YG :
    get_pixeldist PixeldistAlg.Euclidean (scenarioImage.pix (0, 1)) (scenarioImage.pix (1, 1)) =
      1 := by
  rw [show scenarioImage.pix (0, 1) = ⟨255, 255, 0, 255⟩ from rfl,
    show scenarioImage.pix (1, 1) = ⟨0, 0, 255, 0⟩ from rfl, get_pixeldist_euclidean]
  rw [euclidean_transparent _ _ (by decide)]
  exact alpha_only_dist_255_0

theorem scenario_factors :
    build_factors scenarioImage PixeldistAlg.Euclidean =
      [⟨(0, 0), (1, 0), Real.sqrt (2 / 3)⟩, ⟨(0, 0), (1, 1), 1⟩,
       ⟨(0, 0), (0, 1), Real.sqrt (1 / 3)⟩, ⟨(1, 0), (1, 1), 1⟩,
       ⟨(1, 0), (0, 1), 1⟩, ⟨(0, 1), (1, 1), 1⟩] := by
  have hstep : build_factors scenarioImage PixeldistAlg.Euclidean =
      [⟨(0, 0), (1, 0), get_pixeldist PixeldistAlg.Euclidean (scenarioImage.pix (0, 0))
          (scenarioImage.pix (1, 0))⟩,
       ⟨(0, 0), (1, 1), get_pixeldist PixeldistAlg.Euclidean (scenarioImage.pix (0, 0))
          (scenarioImage.pix (1, 1))⟩,
       ⟨(0, 0), (0, 1), get_pixeldist PixeldistAlg.Euclidean (scenarioImage.pix (0, 0))
          (scenarioImage.pix (0, 1))⟩,
       ⟨(1, 0), (1, 1), get_pixeldist PixeldistAlg.Euclidean (scenarioImage.pix (1, 0))
          (scenarioImage.pix (1, 1))⟩,
       ⟨(1, 0), (0, 1), get_pixeldist PixeldistAlg.Euclidean (scenarioImage.pix (1, 0))
          (scenarioImage.pix (0, 1))⟩,
       ⟨(0, 1), (1, 1), get_pixeldist PixeldistAlg.Euclidean (scenarioImage.pix (0, 1))
          (scenarioImage.pix (1, 1))⟩] := by
    unfold build_factors
    rw [show coordsList scenarioImage = [(0, 0), (1, 0), (0, 1), (1, 1)] from rfl]
    simp only [List.flatMap_cons, List.flatMap_nil,
      show scenarioImage.width = 2 from rfl, show scenarioImage.height = 2 from rfl]
    norm_num
  rw [hstep, pd_scenario_RB, pd_scenario_RG, pd_scenario_RY, pd_scenario_BG, pd_scenario_BY,
    pd_scenario_YG]

theorem sqrt13_le_sqrt23 : Real.sqrt (1 / 3) ≤ Real.sqrt (2 / 3) :=
  Real.sqrt_le_sqrt (by norm_num)

theorem sqrt13_le_one : Real.sqrt (1 / 3) ≤ 1 := Real.sqrt_le_one.mpr (by norm_num)

theorem sqrt23_le_one : Real.sqrt (2 / 3) ≤ 1 := Real.sqrt_le_one.mpr (by norm_num)

theorem sqrt13_lt_sqrt23 : Real.sqrt (1 / 3) < Real.sqrt (2 / 3) :=
  Real.sqrt_lt_sqrt (by norm_num) (by norm_num)

theorem sqrt13_lt_one : Real.sqrt (1 / 3) < 1 := by
  rw [show (1 : ℝ) = Real.sqrt 1 from Real.sqrt_one.symm]
  exact Real.sqrt_lt_sqrt (by norm_num) (by norm_num)

theorem scenario_sorted :
    sortedDists (build_factors scenarioImage PixeldistAlg.Euclidean) =
      [Real.sqrt (1 / 3), Real.sqrt (2 / 3), 1, 1, 1, 1] := by
  rw [scenario_factors]
  unfold sortedDists
  rw [show ([⟨(0, 0), (1, 0), Real.sqrt (2 / 3)⟩, ⟨(0, 0), (1, 1), 1⟩,
      ⟨(0, 0), (0, 1), Real.sqrt (1 / 3)⟩, ⟨(1, 0), (1, 1), 1⟩,
      ⟨(1, 0), (0, 1), 1⟩, ⟨(0, 1), (1, 1), 1⟩] : List PixeldistFactor).map
        (fun factor => factor.distance) =
      [Real.sqrt (2 / 3), 1, Real.sqrt (1 / 3), 1, 1, 1] from rfl]
  have htrans : ∀ a b c : ℝ, decide (a ≤ b) = true → decide (b ≤ c) = true →
      decide (a ≤ c) = true := by
    intro a b c hab hbc
    rw [decide_eq_true_eq] at *
    exact le_trans hab hbc
  have htotal : ∀ a b : ℝ, (decide (a ≤ b) || decide (b ≤ a)) = true := by
    intro a b
    rcases le_total a b with h | h
    · rw [decide_eq_true h]
      exact Bool.true_or _
    · rw [decide_eq_true h]
      exact Bool.or_true _
  have hperm : (([Real.sqrt (2 / 3), 1, Real.sqrt (1 / 3), 1, 1, 1] : List ℝ).mergeSort
      (fun a b => decide (a ≤ b))).Perm
      [Real.sqrt (1 / 3), Real.sqrt (2 / 3), 1, 1, 1, 1] :=
    (List.mergeSort_perm _ _).trans
      (@List.perm_middle ℝ (Real.sqrt (1 / 3)) [Real.sqrt (2 / 3), 1] [1, 1, 1])
  have hs1 : List.Sorted (fun a b : ℝ => a ≤ b)
      (([Real.sqrt (2 / 3), 1, Real.sqrt (1 / 3), 1, 1, 1] : List ℝ).mergeSort
        (fun a b => decide (a ≤ b))) :=
    (List.sorted_mergeSort htrans htotal _).imp (fun h => of_decide_eq_true h)
  have hs2 : List.Sorted (fun a b : ℝ => a ≤ b)
      [Real.sqrt (1 / 3), Real.sqrt (2 / 3), 1, 1, 1, 1] := by
    show List.Pairwise _ _
    refine List.Pairwise.cons ?_ (List.Pairwise.cons ?_ ?_)
    · intro b hb
      fin_cases hb
      · exact sqrt13_le_sqrt23
      · exact sqrt13_le_one
      · exact sqrt13_le_one
      · exact sqrt13_le_one
      · exact sqrt13_le_one
    · intro b hb
      fin_cases hb <;> exact sqrt23_le_one
    · refine List.Pairwise.cons ?_ (List.Pairwise.cons ?_ (List.Pairwise.cons ?_
        (List.Pairwise.cons ?_ List.Pairwise.nil))) <;>
        (intro b hb; fin_cases hb) <;> norm_num
  exact List.eq_of_perm_of_sorted hperm hs1 hs2

theorem scenario_threshold_small :
    nth_percentile_dist (build_factors scenarioImage PixeldistAlg.Euclidean) (1 / 2 ^ 149) =
      some (Real.sqrt (2 / 3)) := by
  unfold nth_percentile_dist
  simp only [scenario_sorted]
  rw [show ([Real.sqrt (1 / 3), Real.sqrt (2 / 3), 1, 1, 1, 1] : List ℝ).length = 6 from rfl]
  rw [show (⌈((6 : ℕ) : ℚ) * (1 / 2 ^ 149)⌉).toNat = 1 by
    rw [show ((6 : ℕ) : ℚ) = 6 from by norm_num,
      show (⌈(6 : ℚ) * (1 / 2 ^ 149)⌉ : ℤ) = 1 from by
        rw [Int.ceil_eq_iff]
        constructor <;> norm_num]
    rfl]
  rfl

theorem scenario_threshold_one :
    nth_percentile_dist (build_factors scenarioImage PixeldistAlg.Euclidean) 1 = none := by
  unfold nth_percentile_dist
  simp only [scenario_sorted]
  rw [show ([Real.sqrt (1 / 3), Real.sqrt (2 / 3), 1, 1, 1, 1] : List ℝ).length = 6 from rfl]
  have h6 : ((6 : ℕ) : ℚ) * 1 = 6 := by norm_num
  have hceil : (⌈((6 : ℕ) : ℚ) * 1⌉).toNat = 6 := by
    rw [h6, show (⌈(6 : ℚ)⌉ : ℤ) = 6 from by norm_num]
    decide
  have hfloor : (⌊((6 : ℕ) : ℚ) * 1⌋).toNat = 6 := by
    rw [h6, show (⌊(6 : ℚ)⌋ : ℤ) = 6 from by norm_num]
    decide
  rw [hceil, hfloor]
  rfl

/-- C5: with tolerance exactly 1.0, both the `ceil` index and the `floor`
fallback index equal the length of the sorted distance list, so the threshold
lookup panics (`unwrap` of `None`); on the 2×2 scenario image the agglomerative
clusterer therefore produces no partition at all, rather than a single
all-pixel cluster. -/
theorem agglo_tolerance_one_panics :
    agglomerative scenarioImage PixeldistAlg.Euclidean 1 = none := by
  unfold agglomerative
  simp only [scenario_threshold_one]

/-- C1: whatever partition a k-means run stores is exactly the one computed for
the last candidate `k = max_k`; no silhouette is computed and no selection
across candidates happens (the code's STEP III is a no-op statement and its
`silhouette`/`best_*` variables are never written). -/
theorem k_means_stores_last_candidate (img : Image) (max_k : ℕ) (rand_pick : ℕ → ℕ × ℕ)
    (fuel : ℕ) (res : KState) (hk : 2 ≤ max_k)
    (h : kMeans img max_k rand_pick fuel = some res) :
    kMeansForK img max_k (rand_pick max_k) fuel = some res :=
  kMeans_foldlM_last img max_k rand_pick fuel res hk h

theorem scenario_agglo_eval :
    agglomerative scenarioImage PixeldistAlg.Euclidean (1 / 2 ^ 149) =
      some (consume_cluster 2 0 (initAggloState scenarioImage)) := by
  unfold agglomerative
  simp only [scenario_threshold_small]
  rw [scenario_factors]
  simp only [List.foldl_cons, List.foldl_nil]
  rw [show aggloStep (Real.sqrt (2 / 3)) (initAggloState scenarioImage)
      ⟨(0, 0), (1, 0), Real.sqrt (2 / 3)⟩ = initAggloState scenarioImage by
    unfold aggloStep
    dsimp only
    rw [if_neg (fun hcond => absurd hcond.2 (lt_irrefl _))]]
  rw [show aggloStep (Real.sqrt (2 / 3)) (initAggloState scenarioImage)
      ⟨(0, 0), (1, 1), 1⟩ = initAggloState scenarioImage by
    unfold aggloStep
    dsimp only
    rw [if_neg (fun hcond => absurd hcond.2 (not_lt.mpr sqrt23_le_one))]]
  rw [show aggloStep (Real.sqrt (2 / 3)) (initAggloState scenarioImage)
      ⟨(0, 0), (0, 1), Real.sqrt (1 / 3)⟩ =
      consume_cluster 2 0 (initAggloState scenarioImage) by
    unfold aggloStep
    dsimp only
    rw [if_pos ⟨by decide, sqrt13_lt_sqrt23⟩, if_neg (by decide)]
    rfl]
  rw [show aggloStep (Real.sqrt (2 / 3)) (consume_cluster 2 0 (initAggloState scenarioImage))
      ⟨(1, 0), (1, 1), 1⟩ = consume_cluster 2 0 (initAggloState scenarioImage) by
    unfold aggloStep
    dsimp only
    rw [if_neg (fun hcond => absurd hcond.2 (not_lt.mpr sqrt23_le_one))]]
  rw [show aggloStep (Real.sqrt (2 / 3)) (consume_cluster 2 0 (initAggloState scenarioImage))
      ⟨(1, 0), (0, 1), 1⟩ = consume_cluster 2 0 (initAggloState scenarioImage) by
    unfold aggloStep
    dsimp only
    rw [if_neg (fun hcond => absurd hcond.2 (not_lt.mpr sqrt23_le_one))]]
  rw [show aggloStep (Real.sqrt (2 / 3)) (consume_cluster 2 0 (initAggloState scenarioImage))
      ⟨(0, 1), (1, 1), 1⟩ = consume_cluster 2 0 (initAggloState scenarioImage) by
    unfold aggloStep
    dsimp only
    rw [if_neg (fun hcond => absurd hcond.2 (not_lt.mpr sqrt23_le_one))]]

/-- C6 counterexample: with the smallest positive tolerance `2⁻¹⁴⁹` (the least
positive `f32`), agglomerative clustering of the 2×2 scenario image does merge:
Red (0,0) and Yellow (0,1) end in the same cluster (id 2), so the result is not
four singleton clusters. -/
theorem agglo_smallest_tolerance_merges :
    (agglomerative scenarioImage PixeldistAlg.Euclidean (1 / 2 ^ 149)).map
      (fun s => (s.cluster_lookup (0, 0), s.cluster_lookup (0, 1))) = some (2, 2) := by
  rw [scenario_agglo_eval]
  rfl

/-- C6 amended: with the smallest positive tolerance the threshold is the
second-smallest factor distance (`⌈6·2⁻¹⁴⁹⌉ = 1`), the single strictly smaller
factor (Red–Yellow) merges, and the scenario image yields three non-empty
clusters: `{(1,0)}`, `{(0,1),(0,0)}`, `{(1,1)}` (cluster 0 is left empty). -/
theorem agglo_smallest_tolerance_result :
    (agglomerative scenarioImage PixeldistAlg.Euclidean (1 / 2 ^ 149)).map
      (fun s => (s.cluster_lookup (0, 0), s.cluster_lookup (1, 0), s.cluster_lookup (0, 1),
        s.cluster_lookup (1, 1), s.pixel_clusters 0, s.pixel_clusters 1, s.pixel_clusters 2,
        s.pixel_clusters 3)) =
      some (2, 1, 2, 3, [], [(1, 0)], [(0, 1), (0, 0)], [(1, 1)]) := by
  rw [scenario_agglo_eval]
  rfl

/-- C4 counterexample: merging the equal-sized singleton clusters of (0,0)
(cluster 0, the first operand Ca) and (0,1) (cluster 2, the second operand Cb)
rewrites (0,0)'s lookup entry to 2 — the b-cluster absorbs the a-cluster — so
on a tie the first operand is absorbed, not the second as claimed ((0,1)'s
entry would then be 0). -/
theorem agglo_tie_absorbs_first_operand :
    ((aggloStep 1 (initAggloState scenarioImage)
        ⟨(0, 0), (0, 1), euclidean (scenarioImage.pix (0, 0)) (scenarioImage.pix (0, 1))⟩
      ).cluster_lookup (0, 0) = 2 ∧
     (aggloStep 1 (initAggloState scenarioImage)
        ⟨(0, 0), (0, 1), euclidean (scenarioImage.pix (0, 0)) (scenarioImage.pix (0, 1))⟩
      ).cluster_lookup (0, 1) = 2) ∧
    (aggloStep 1 (initAggloState scenarioImage)
        ⟨(0, 0), (0, 1), euclidean (scenarioImage.pix (0, 0)) (scenarioImage.pix (0, 1))⟩
      ).cluster_lookup (0, 1) ≠ 0 := by
  have hd : euclidean (scenarioImage.pix (0, 0)) (scenarioImage.pix (0, 1)) =
      Real.sqrt (1 / 3) := by
    rw [← get_pixeldist_euclidean, pd_scenario_RY]
  rw [hd]
  have hstep : aggloStep 1 (initAggloState scenarioImage)
      ⟨(0, 0), (0, 1), Real.sqrt (1 / 3)⟩ =
      consume_cluster 2 0 (initAggloState scenarioImage) := by
    unfold aggloStep
    dsimp only
    rw [if_pos ⟨by decide, sqrt13_lt_one⟩, if_neg (by decide)]
    rfl
  rw [hstep]
  exact ⟨⟨rfl, rfl⟩, by decide⟩

/-- C4 amended: when a factor merges two distinct clusters, the cluster with
strictly more members absorbs the other, and with equal member counts the
second operand Cb absorbs the first operand Ca (Ca is the cluster absorbed);
absorption moves every member of the losing cluster into the winning cluster's
list and rewrites each moved coordinate's lookup entry to the winning id. -/
theorem agglo_merge_policy (s : AggloState) (factor : PixeldistFactor) (threshold : ℝ)
    (hne : s.cluster_lookup factor.a_coords ≠ s.cluster_lookup factor.b_coords)
    (hlt : factor.distance < threshold) :
    ((s.pixel_clusters (s.cluster_lookup factor.a_coords)).length >
        (s.pixel_clusters (s.cluster_lookup factor.b_coords)).length →
      aggloStep threshold s factor =
        consume_cluster (s.cluster_lookup factor.a_coords)
          (s.cluster_lookup factor.b_coords) s) ∧
    (¬((s.pixel_clusters (s.cluster_lookup factor.a_coords)).length >
        (s.pixel_clusters (s.cluster_lookup factor.b_coords)).length) →
      aggloStep threshold s factor =
        consume_cluster (s.cluster_lookup factor.b_coords)
          (s.cluster_lookup factor.a_coords) s) ∧
    (∀ predator prey : ℕ, predator ≠ prey →
      ∀ c ∈ s.pixel_clusters prey,
        (consume_cluster predator prey s).cluster_lookup c = predator ∧
        c ∈ (consume_cluster predator prey s).pixel_clusters predator) := by
  refine ⟨?_, ?_, ?_⟩
  · intro hgt
    unfold aggloStep
    dsimp only
    rw [if_pos ⟨hne, hlt⟩, if_pos hgt]
  · intro hle
    unfold aggloStep
    dsimp only
    rw [if_pos ⟨hne, hlt⟩, if_neg hle]
  · intro predator prey hpq c hc
    constructor
    · rw [consume_lookup, if_pos hc]
    · rw [consume_clusters_mem _ _ _ hpq]
      exact ⟨hpq, Or.inr ⟨rfl, hc⟩⟩

theorem agglo_merge_policy_witness :
    (initAggloState scenarioImage).cluster_lookup (0, 0) ≠
        (initAggloState scenarioImage).cluster_lookup (0, 1) ∧
    Real.sqrt (1 / 3) < 1 ∧
    aggloStep 1 (initAggloState scenarioImage) ⟨(0, 0), (0, 1), Real.sqrt (1 / 3)⟩ =
      consume_cluster ((initAggloState scenarioImage).cluster_lookup (0, 1))
        ((initAggloState scenarioImage).cluster_lookup (0, 0))
        (initAggloState scenarioImage) := by
  refine ⟨by decide, sqrt13_lt_one, ?_⟩
  exact (agglo_merge_policy (initAggloState scenarioImage)
    ⟨(0, 0), (0, 1), Real.sqrt (1 / 3)⟩ 1 (by decide) sqrt13_lt_one).2.1 (by decide)

theorem euclidean_dist_zeros : euclidean_dist 0 0 0 0 0 0 = 0 := by
  unfold euclidean_dist
  norm_num

theorem euclidean_dist_self (r_a b_a g_a : ℕ) : euclidean_dist r_a b_a g_a r_a b_a g_a = 0 := by
  unfold euclidean_dist
  norm_num

theorem euclidean_dist_white_black : euclidean_dist 255 255 255 0 0 0 = Real.sqrt 195075 := by
  unfold euclidean_dist
  norm_num

theorem f32MAX_pos : (0 : ℝ) < f32MAX := by
  unfold f32MAX
  norm_num

theorem sqrt195075_pos : (0 : ℝ) < Real.sqrt 195075 := Real.sqrt_pos.mpr (by norm_num)

theorem sqrt195075_lt_f32MAX : Real.sqrt 195075 < f32MAX := by
  have h1 : Real.sqrt 195075 < 452 := by
    rw [show (452 : ℝ) = Real.sqrt (452 ^ 2) from (Real.sqrt_sq (by norm_num)).symm]
    exact Real.sqrt_lt_sqrt (by norm_num) (by norm_num)
  have h2 : (452 : ℝ) < f32MAX := by
    unfold f32MAX
    norm_num
  linarith

theorem foldl_ite_update_cases {α β : Type} (f : β → α) (cond : α → β → Prop)
    [∀ a b, Decidable (cond a b)] :
    ∀ (l : List β) (init : α),
      l.foldl (fun acc c => if cond acc c then f c else acc) init = init ∨
      ∃ c ∈ l, l.foldl (fun acc c => if cond acc c then f c else acc) init = f c := by
  intro l
  induction l with
  | nil => intro init; exact Or.inl rfl
  | cons c₀ tl ih =>
    intro init
    rw [List.foldl_cons]
    by_cases hcnd : cond init c₀
    · have hstep : (fun acc c => if cond acc c then f c else acc) init c₀ = f c₀ := by
        dsimp only
        rw [if_pos hcnd]
      rcases ih ((fun acc c => if cond acc c then f c else acc) init c₀) with h | ⟨c, hctl, h⟩
      · exact Or.inr ⟨c₀, List.mem_cons_self _ _, h.trans hstep⟩
      · exact Or.inr ⟨c, List.mem_cons_of_mem _ hctl, h⟩
    · have hstep : (fun acc c => if cond acc c then f c else acc) init c₀ = init := by
        dsimp only
        rw [if_neg hcnd]
      rcases ih ((fun acc c => if cond acc c then f c else acc) init c₀) with h | ⟨c, hctl, h⟩
      · exact Or.inl (h.trans hstep)
      · exact Or.inr ⟨c, List.mem_cons_of_mem _ hctl, h⟩

theorem foldl_min_le {β : Type} (g : β → ℝ) :
    ∀ (l : List β) (init : ℝ),
      (l.foldl (fun acc c => if g c < acc then g c else acc) init ≤ init) ∧
      ∀ c ∈ l, l.foldl (fun acc c => if g c < acc then g c else acc) init ≤ g c := by
  intro l
  induction l with
  | nil =>
    intro init
    exact ⟨le_refl _, fun c hc => absurd hc (List.not_mem_nil _)⟩
  | cons c₀ tl ih =>
    intro init
    rw [show List.foldl (fun acc c => if g c < acc then g c else acc) init (c₀ :: tl) =
      List.foldl (fun acc c => if g c < acc then g c else acc)
        ((fun acc c => if g c < acc then g c else acc) init c₀) tl from rfl]
    have hstep : (fun acc c => if g c < acc then g c else acc) init c₀ ≤ init ∧
        (fun acc c => if g c < acc then g c else acc) init c₀ ≤ g c₀ := by
      dsimp only
      by_cases hcnd : g c₀ < init
      · rw [if_pos hcnd]
        exact ⟨le_of_lt hcnd, le_refl _⟩
      · rw [if_neg hcnd]
        exact ⟨le_refl _, le_of_not_lt hcnd⟩
    obtain ⟨h1, h2⟩ := ih ((fun acc c => if g c < acc then g c else acc) init c₀)
    refine ⟨le_trans h1 hstep.1, ?_⟩
    intro c hc
    rcases List.mem_cons.mp hc with heq | hctl
    · rw [heq]
      exact le_trans h1 hstep.2
    · exact h2 c hctl

theorem closest_centroid_dist_le (centroids : List Centroid) (p : Rgba) (cc : Centroid)
    (h : cc ∈ centroids) :
    closest_centroid_dist centroids p ≤
      euclidean_dist p.r.val p.g.val p.b.val cc.r cc.g cc.b := by
  have heq : closest_centroid_dist centroids p =
      centroids.foldl (fun closest cc =>
        if euclidean_dist p.r.val p.g.val p.b.val cc.r cc.g cc.b < closest
        then euclidean_dist p.r.val p.g.val p.b.val cc.r cc.g cc.b else closest) f32MAX := rfl
  rw [heq]
  exact (foldl_min_le _ centroids f32MAX).2 cc h

theorem max_dist_pixel_scan_cases (img : Image) (centroids : List Centroid) :
    max_dist_pixel_scan img centroids = ((0, 0), (0, 0, 0), 0) ∨
    ∃ c ∈ coordsList img, max_dist_pixel_scan img centroids =
      (c, ((img.pix c).r.val, (img.pix c).g.val, (img.pix c).b.val),
        closest_centroid_dist centroids (img.pix c)) := by
  have heq : max_dist_pixel_scan img centroids =
      (coordsList img).foldl
        (fun acc c => if closest_centroid_dist centroids (img.pix c) > acc.2.2
          then (c, ((img.pix c).r.val, (img.pix c).g.val, (img.pix c).b.val),
            closest_centroid_dist centroids (img.pix c))
          else acc)
        ((0, 0), (0, 0, 0), 0) := rfl
  rw [heq]
  exact foldl_ite_update_cases _ _ (coordsList img) _

theorem seedCentroids_one (img : Image) (first : ℕ × ℕ) :
    (seedCentroids img 1 first).1 =
      [⟨first, (img.pix first).r.val, (img.pix first).g.val, (img.pix first).b.val⟩] := rfl

theorem seedCentroids_succ_fst (img : Image) (first : ℕ × ℕ) (n : ℕ) :
    (seedCentroids img (n + 2) first).1 =
      (seedCentroids img (n + 1) first).1 ++
        [⟨(max_dist_pixel_scan img (seedCentroids img (n + 1) first).1).1,
          (max_dist_pixel_scan img (seedCentroids img (n + 1) first).1).2.1.1,
          (max_dist_pixel_scan img (seedCentroids img (n + 1) first).1).2.1.2.1,
          (max_dist_pixel_scan img (seedCentroids img (n + 1) first).1).2.1.2.2⟩] := by
  show ((seedCentroids img (n + 2) first)).1 = _
  unfold seedCentroids
  rw [show (n + 2) - 1 = ((n + 1) - 1) + 1 from rfl, List.range_succ, List.foldl_append]
  rfl

theorem seeding_good (img : Image) (first : ℕ × ℕ) :
    ∀ n : ℕ,
      (∀ i, i < n →
        0 < (max_dist_pixel_scan img (seedCentroids img (i + 1) first).1).2.2) →
      (∀ cc ∈ (seedCentroids img (n + 1) first).1,
        cc.r = (img.pix cc.coords).r.val ∧ cc.g = (img.pix cc.coords).g.val ∧
          cc.b = (img.pix cc.coords).b.val) ∧
      ((seedCentroids img (n + 1) first).1.map Centroid.coords).Nodup := by
  intro n
  induction n with
  | zero =>
    intro _
    rw [seedCentroids_one]
    constructor
    · intro cc hcc
      rw [List.mem_singleton] at hcc
      subst hcc
      exact ⟨rfl, rfl, rfl⟩
    · simp
  | succ n ih =>
    intro hpos
    obtain ⟨hgood, hnd⟩ := ih (fun i hi => hpos i (Nat.lt_succ_of_lt hi))
    have hp := hpos n (Nat.lt_succ_self n)
    rcases max_dist_pixel_scan_cases img (seedCentroids img (n + 1) first).1 with
      hdef | ⟨c, hcmem, hshape⟩
    · rw [hdef] at hp
      norm_num at hp
    · have hclosest : 0 < closest_centroid_dist (seedCentroids img (n + 1) first).1
          (img.pix c) := by
        rw [hshape] at hp
        exact hp
      have hnotmem : ∀ cc ∈ (seedCentroids img (n + 1) first).1, cc.coords ≠ c := by
        intro cc hcc heq
        have hle := closest_centroid_dist_le _ (img.pix c) cc hcc
        obtain ⟨hr, hg, hb⟩ := hgood cc hcc
        rw [hr, hg, hb, heq, euclidean_dist_self] at hle
        exact absurd (lt_of_lt_of_le hclosest hle) (lt_irrefl 0)
      rw [show n + 1 + 1 = n + 2 from rfl, seedCentroids_succ_fst, hshape]
      constructor
      · intro cc hcc
        rcases List.mem_append.mp hcc with hcc | hcc
        · exact hgood cc hcc
        · rw [List.mem_singleton] at hcc
          subst hcc
          exact ⟨rfl, rfl, rfl⟩
      · rw [List.map_append, List.nodup_append]
        refine ⟨hnd, List.nodup_singleton _, ?_⟩
        intro a ha hb
        rw [show (List.map Centroid.coords [⟨c, (img.pix c).r.val, (img.pix c).g.val,
            (img.pix c).b.val⟩] : List (ℕ × ℕ)) = [c] from rfl] at hb
        rw [List.mem_singleton] at hb
        subst hb
        obtain ⟨cc, hcc, hcoords⟩ := List.mem_map.mp ha
        exact hnotmem cc hcc hcoords

/-- C9 amended: the `k - 1` farthest-point picks are pairwise distinct
coordinates (and distinct from the first random centroid) provided each pick's
maximal nearest-centroid distance is strictly positive; when it is 0 (every
pixel's colour already equals some centroid's colour) the scan keeps its
placeholder `(0,0)` with colour `[0,0,0]`, which can repeat an already chosen
coordinate. -/
theorem seeding_pairwise_distinct_of_positive (img : Image) (k : ℕ) (first : ℕ × ℕ)
    (hpos : ∀ i, i < k - 1 →
      0 < (max_dist_pixel_scan img (seedCentroids img (i + 1) first).1).2.2) :
    ((seedCentroids img k first).1.map Centroid.coords).Nodup := by
  have hk : seedCentroids img k first = seedCentroids img ((k - 1) + 1) first := by
    cases k with
    | zero => rfl
    | succ n => rfl
  rw [hk]
  exact (seeding_good img first (k - 1) hpos).2

theorem closest_black2x1 (c : ℕ × ℕ) :
    closest_centroid_dist [⟨(0, 0), 0, 0, 0⟩] (black2x1.pix c) = 0 := by
  unfold closest_centroid_dist
  simp only [List.foldl_cons, List.foldl_nil]
  rw [show (black2x1.pix c).r.val = 0 from rfl, show (black2x1.pix c).g.val = 0 from rfl,
    show (black2x1.pix c).b.val = 0 from rfl, euclidean_dist_zeros, if_pos f32MAX_pos]

theorem black2x1_scan :
    max_dist_pixel_scan black2x1 [⟨(0, 0), 0, 0, 0⟩] = ((0, 0), (0, 0, 0), 0) := by
  unfold max_dist_pixel_scan
  rw [show coordsList black2x1 = [(0, 0), (1, 0)] from rfl]
  simp only [List.foldl_cons, List.foldl_nil]
  rw [closest_black2x1 (0, 0), closest_black2x1 (1, 0)]
  rw [if_neg (lt_irrefl (0 : ℝ)), if_neg (lt_irrefl (0 : ℝ))]

/-- C9 counterexample: on a 2×1 image whose two pixels are both opaque black,
seeding with k = 2 and first random pick (0,0) selects the coordinate (0,0)
twice: every pixel has distance 0 to the existing centroid, so the scan keeps
its placeholder (0,0) and the produced centroid coordinates are not pairwise
distinct. -/
theorem seeding_duplicate_centroid :
    ((seedCentroids black2x1 2 (0, 0)).1.map Centroid.coords = [(0, 0), (0, 0)]) ∧
    ¬((seedCentroids black2x1 2 (0, 0)).1.map Centroid.coords).Nodup := by
  have hseed : (seedCentroids black2x1 2 (0, 0)).1 =
      [⟨(0, 0), 0, 0, 0⟩, ⟨(0, 0), 0, 0, 0⟩] := by
    unfold seedCentroids
    rw [show (2 - 1 : ℕ) = 1 from rfl, show List.range 1 = [0] from rfl]
    simp only [List.foldl_cons, List.foldl_nil]
    rw [show (black2x1.pix (0, 0)).r.val = 0 from rfl,
      show (black2x1.pix (0, 0)).g.val = 0 from rfl,
      show (black2x1.pix (0, 0)).b.val = 0 from rfl]
    rw [black2x1_scan]
    rfl
  rw [hseed]
  exact ⟨rfl, by decide⟩

theorem closest_blackWhite_00 :
    closest_centroid_dist [⟨(0, 0), 0, 0, 0⟩] (blackWhite2x1.pix (0, 0)) = 0 := by
  unfold closest_centroid_dist
  simp only [List.foldl_cons, List.foldl_nil]
  rw [show (blackWhite2x1.pix (0, 0)).r.val = 0 from rfl,
    show (blackWhite2x1.pix (0, 0)).g.val = 0 from rfl,
    show (blackWhite2x1.pix (0, 0)).b.val = 0 from rfl, euclidean_dist_zeros,
    if_pos f32MAX_pos]

theorem closest_blackWhite_10 :
    closest_centroid_dist [⟨(0, 0), 0, 0, 0⟩] (blackWhite2x1.pix (1, 0)) =
      Real.sqrt 195075 := by
  unfold closest_centroid_dist
  simp only [List.foldl_cons, List.foldl_nil]
  rw [show (blackWhite2x1.pix (1, 0)).r.val = 255 from rfl,
    show (blackWhite2x1.pix (1, 0)).g.val = 255 from rfl,
    show (blackWhite2x1.pix (1, 0)).b.val = 255 from rfl, euclidean_dist_white_black,
    if_pos sqrt195075_lt_f32MAX]

theorem blackWhite2x1_scan :
    max_dist_pixel_scan blackWhite2x1 [⟨(0, 0), 0, 0, 0⟩] =
      ((1, 0), (255, 255, 255), Real.sqrt 195075) := by
  unfold max_dist_pixel_scan
  rw [show coordsList blackWhite2x1 = [(0, 0), (1, 0)] from rfl]
  simp only [List.foldl_cons, List.foldl_nil]
  rw [closest_blackWhite_00, closest_blackWhite_10]
  rw [if_neg (lt_irrefl (0 : ℝ)), if_pos sqrt195075_pos]
  rw [show (blackWhite2x1.pix (1, 0)).r.val = 255 from rfl,
    show (blackWhite2x1.pix (1, 0)).g.val = 255 from rfl,
    show (blackWhite2x1.pix (1, 0)).b.val = 255 from rfl]

theorem seeding_distinct_witness :
    (∀ i, i < 2 - 1 →
      0 < (max_dist_pixel_scan blackWhite2x1
        (seedCentroids blackWhite2x1 (i + 1) (0, 0)).1).2.2) ∧
    ((seedCentroids blackWhite2x1 2 (0, 0)).1.map Centroid.coords).Nodup := by
  have hpos : ∀ i, i < 2 - 1 →
      0 < (max_dist_pixel_scan blackWhite2x1
        (seedCentroids blackWhite2x1 (i + 1) (0, 0)).1).2.2 := by
    intro i hi
    interval_cases i
    rw [show (seedCentroids blackWhite2x1 (0 + 1) (0, 0)).1 = [⟨(0, 0), 0, 0, 0⟩] from rfl]
    rw [blackWhite2x1_scan]
    exact sqrt195075_pos
  exact ⟨hpos, seeding_pairwise_distinct_of_positive blackWhite2x1 2 (0, 0) hpos⟩

theorem closest_black1x1_one (c : ℕ × ℕ) :
    closest_centroid_dist [⟨(0, 0), 0, 0, 0⟩] (black1x1.pix c) = 0 := by
  unfold closest_centroid_dist
  simp only [List.foldl_cons, List.foldl_nil]
  rw [show (black1x1.pix c).r.val = 0 from rfl, show (black1x1.pix c).g.val = 0 from rfl,
    show (black1x1.pix c).b.val = 0 from rfl, euclidean_dist_zeros, if_pos f32MAX_pos]

theorem closest_black1x1_two (c : ℕ × ℕ) :
    closest_centroid_dist [⟨(0, 0), 0, 0, 0⟩, ⟨(0, 0), 0, 0, 0⟩] (black1x1.pix c) = 0 := by
  unfold closest_centroid_dist
  simp only [List.foldl_cons, List.foldl_nil]
  rw [show (black1x1.pix c).r.val = 0 from rfl, show (black1x1.pix c).g.val = 0 from rfl,
    show (black1x1.pix c).b.val = 0 from rfl, euclidean_dist_zeros, if_pos f32MAX_pos,
    if_neg (lt_irrefl (0 : ℝ))]

theorem black1x1_scan_one :
    max_dist_pixel_scan black1x1 [⟨(0, 0), 0, 0, 0⟩] = ((0, 0), (0, 0, 0), 0) := by
  unfold max_dist_pixel_scan
  rw [show coordsList black1x1 = [(0, 0)] from rfl]
  simp only [List.foldl_cons, List.foldl_nil]
  rw [closest_black1x1_one (0, 0), if_neg (lt_irrefl (0 : ℝ))]

theorem black1x1_scan_two :
    max_dist_pixel_scan black1x1 [⟨(0, 0), 0, 0, 0⟩, ⟨(0, 0), 0, 0, 0⟩] =
      ((0, 0), (0, 0, 0), 0) := by
  unfold max_dist_pixel_scan
  rw [show coordsList black1x1 = [(0, 0)] from rfl]
  simp only [List.foldl_cons, List.foldl_nil]
  rw [closest_black1x1_two (0, 0), if_neg (lt_irrefl (0 : ℝ))]

theorem seed2_black1x1_fst :
    (seedCentroids black1x1 2 (0, 0)).1 = [⟨(0, 0), 0, 0, 0⟩, ⟨(0, 0), 0, 0, 0⟩] := by
  rw [show (2 : ℕ) = 0 + 2 from rfl, seedCentroids_succ_fst]
  rw [show (seedCentroids black1x1 (0 + 1) (0, 0)).1 = [⟨(0, 0), 0, 0, 0⟩] from rfl]
  rw [black1x1_scan_one]
  rfl

theorem seed3_black1x1_fst :
    (seedCentroids black1x1 3 (0, 0)).1 =
      [⟨(0, 0), 0, 0, 0⟩, ⟨(0, 0), 0, 0, 0⟩, ⟨(0, 0), 0, 0, 0⟩] := by
  rw [show (3 : ℕ) = 1 + 2 from rfl, seedCentroids_succ_fst]
  rw [show (1 : ℕ) + 1 = 2 from rfl, seed2_black1x1_fst]
  rw [black1x1_scan_two]
  rfl

theorem assign_black1x1_two :
    assignMovement [⟨(0, 0), 0, 0, 0⟩, ⟨(0, 0), 0, 0, 0⟩] (0, 0) (black1x1.pix (0, 0)) =
      ⟨(0, 0), 0⟩ := by
  unfold assignMovement
  simp only [List.foldl_cons, List.foldl_nil]
  rw [show (black1x1.pix (0, 0)).r.val = 0 from rfl,
    show (black1x1.pix (0, 0)).g.val = 0 from rfl,
    show (black1x1.pix (0, 0)).b.val = 0 from rfl, euclidean_dist_zeros,
    if_pos f32MAX_pos, if_neg (lt_irrefl (0 : ℝ))]
  rfl

theorem assign_black1x1_three :
    assignMovement [⟨(0, 0), 0, 0, 0⟩, ⟨(0, 0), 0, 0, 0⟩, ⟨(0, 0), 0, 0, 0⟩] (0, 0)
      (black1x1.pix (0, 0)) = ⟨(0, 0), 0⟩ := by
  unfold assignMovement
  simp only [List.foldl_cons, List.foldl_nil]
  rw [show (black1x1.pix (0, 0)).r.val = 0 from rfl,
    show (black1x1.pix (0, 0)).g.val = 0 from rfl,
    show (black1x1.pix (0, 0)).b.val = 0 from rfl, euclidean_dist_zeros,
    if_pos f32MAX_pos, if_neg (lt_irrefl (0 : ℝ)), if_neg (lt_irrefl (0 : ℝ))]
  rfl

theorem movements_black1x1_two :
    (coordsList black1x1).map
      (fun c => assignMovement [⟨(0, 0), 0, 0, 0⟩, ⟨(0, 0), 0, 0, 0⟩] c (black1x1.pix c)) =
      [⟨(0, 0), 0⟩] := by
  rw [show coordsList black1x1 = [(0, 0)] from rfl]
  simp only [List.map_cons, List.map_nil]
  rw [assign_black1x1_two]

theorem movements_black1x1_three :
    (coordsList black1x1).map
      (fun c => assignMovement [⟨(0, 0), 0, 0, 0⟩, ⟨(0, 0), 0, 0, 0⟩, ⟨(0, 0), 0, 0, 0⟩] c
        (black1x1.pix c)) = [⟨(0, 0), 0⟩] := by
  rw [show coordsList black1x1 = [(0, 0)] from rfl]
  simp only [List.map_cons, List.map_nil]
  rw [assign_black1x1_three]

theorem recentre_one_black1x1 :
    recentre_one black1x1 kFinal1x1 (0, 0) = (⟨(0, 0), 0, 0, 0⟩, 0) := by
  unfold recentre_one
  dsimp only
  rw [show kFinal1x1.pixel_clusters ((kFinal1x1.cluster_lookup (0, 0)).getD 0) = [(0, 0)]
    from rfl]
  rw [show (List.map (fun c => (black1x1.pix c).r.val) [(0, 0)]).sum = 0 from rfl,
    show (List.map (fun c => (black1x1.pix c).g.val) [(0, 0)]).sum = 0 from rfl,
    show (List.map (fun c => (black1x1.pix c).b.val) [(0, 0)]).sum = 0 from rfl,
    show ([((0 : ℕ), (0 : ℕ))] : List (ℕ × ℕ)).length = 1 from rfl]
  rw [show ((0 : ℕ) : ℝ) / ((1 : ℕ) : ℝ) = 0 by norm_num, Nat.floor_zero]
  simp only [List.foldl_cons, List.foldl_nil]
  rw [show (black1x1.pix (0, 0)).r.val = 0 from rfl,
    show (black1x1.pix (0, 0)).g.val = 0 from rfl,
    show (black1x1.pix (0, 0)).b.val = 0 from rfl, euclidean_dist_zeros,
    if_pos f32MAX_pos]
  norm_num

theorem recentre_black1x1_two :
    recentre black1x1 kFinal1x1 [⟨(0, 0), 0, 0, 0⟩, ⟨(0, 0), 0, 0, 0⟩] =
      ([⟨(0, 0), 0, 0, 0⟩, ⟨(0, 0), 0, 0, 0⟩], 0) := by
  unfold recentre
  simp only [List.map_cons, List.map_nil]
  rw [recentre_one_black1x1]
  simp

theorem recentre_black1x1_three :
    recentre black1x1 kFinal1x1 [⟨(0, 0), 0, 0, 0⟩, ⟨(0, 0), 0, 0, 0⟩, ⟨(0, 0), 0, 0, 0⟩] =
      ([⟨(0, 0), 0, 0, 0⟩, ⟨(0, 0), 0, 0, 0⟩, ⟨(0, 0), 0, 0, 0⟩], 0) := by
  unfold recentre
  simp only [List.map_cons, List.map_nil]
  rw [recentre_one_black1x1]
  simp

theorem cycleCheck_singleton : cycleCheck [(0 : ℝ)] = false := by
  unfold cycleCheck MAX_CYCLES
  rw [if_neg (fun hcond => absurd hcond.1 (by norm_num))]

theorem convergedCheck_self (img : Image) (lk : ℕ × ℕ → Option ℕ) :
    convergedCheck img lk lk = true :=
  decide_eq_true (fun _ _ => rfl)

theorem kLoopStep_black1x1_two (fuel : ℕ) (s₀ : KState) (w : List ℝ) :
    kMeansLoop black1x1 (fuel + 1) [⟨(0, 0), 0, 0, 0⟩, ⟨(0, 0), 0, 0, 0⟩] s₀ w =
      if (convergedCheck black1x1 s₀.cluster_lookup kFinal1x1.cluster_lookup ||
          cycleCheck (w ++ [0])) = true
      then some kFinal1x1
      else kMeansLoop black1x1 fuel [⟨(0, 0), 0, 0, 0⟩, ⟨(0, 0), 0, 0, 0⟩] kFinal1x1
        (w ++ [0]) := by
  rw [kMeansLoop]
  simp only [movements_black1x1_two]
  rw [show applyMovements [⟨(0, 0), 0⟩] emptyKState = kFinal1x1 from rfl]
  simp only [recentre_black1x1_two]

theorem kLoopStep_black1x1_three (fuel : ℕ) (s₀ : KState) (w : List ℝ) :
    kMeansLoop black1x1 (fuel + 1)
        [⟨(0, 0), 0, 0, 0⟩, ⟨(0, 0), 0, 0, 0⟩, ⟨(0, 0), 0, 0, 0⟩] s₀ w =
      if (convergedCheck black1x1 s₀.cluster_lookup kFinal1x1.cluster_lookup ||
          cycleCheck (w ++ [0])) = true
      then some kFinal1x1
      else kMeansLoop black1x1 fuel
        [⟨(0, 0), 0, 0, 0⟩, ⟨(0, 0), 0, 0, 0⟩, ⟨(0, 0), 0, 0, 0⟩] kFinal1x1 (w ++ [0]) := by
  rw [kMeansLoop]
  simp only [movements_black1x1_three]
  rw [show applyMovements [⟨(0, 0), 0⟩] emptyKState = kFinal1x1 from rfl]
  simp only [recentre_black1x1_three]

theorem kLoop_black1x1_two (s₀ : KState) :
    kMeansLoop black1x1 2 [⟨(0, 0), 0, 0, 0⟩, ⟨(0, 0), 0, 0, 0⟩] s₀ [] = some kFinal1x1 := by
  rw [show (2 : ℕ) = 1 + 1 from rfl, kLoopStep_black1x1_two]
  rw [show (([] : List ℝ) ++ [0]) = [(0 : ℝ)] from rfl, cycleCheck_singleton, Bool.or_false]
  cases hA : convergedCheck black1x1 s₀.cluster_lookup kFinal1x1.cluster_lookup with
  | false =>
    rw [if_neg (by simp)]
    rw [show (1 : ℕ) = 0 + 1 from rfl, kLoopStep_black1x1_two, convergedCheck_self,
      Bool.true_or, if_pos rfl]
  | true => rw [if_pos rfl]

theorem kLoop_black1x1_three (s₀ : KState) :
    kMeansLoop black1x1 2 [⟨(0, 0), 0, 0, 0⟩, ⟨(0, 0), 0, 0, 0⟩, ⟨(0, 0), 0, 0, 0⟩] s₀ [] =
      some kFinal1x1 := by
  rw [show (2 : ℕ) = 1 + 1 from rfl, kLoopStep_black1x1_three]
  rw [show (([] : List ℝ) ++ [0]) = [(0 : ℝ)] from rfl, cycleCheck_singleton, Bool.or_false]
  cases hA : convergedCheck black1x1 s₀.cluster_lookup kFinal1x1.cluster_lookup with
  | false =>
    rw [if_neg (by simp)]
    rw [show (1 : ℕ) = 0 + 1 from rfl, kLoopStep_black1x1_three, convergedCheck_self,
      Bool.true_or, if_pos rfl]
  | true => rw [if_pos rfl]

theorem kMeansForK_eq (img : Image) (k : ℕ) (first_pick : ℕ × ℕ) (fuel : ℕ) :
    kMeansForK img k first_pick fuel =
      kMeansLoop img fuel (seedCentroids img k first_pick).1
        (seedCentroids img k first_pick).2 [] := rfl

theorem kForK2_black1x1 : kMeansForK black1x1 2 (0, 0) 2 = some kFinal1x1 := by
  rw [kMeansForK_eq, seed2_black1x1_fst]
  exact kLoop_black1x1_two _

theorem kForK3_black1x1 : kMeansForK black1x1 3 (0, 0) 2 = some kFinal1x1 := by
  rw [kMeansForK_eq, seed3_black1x1_fst]
  exact kLoop_black1x1_three _

theorem kMeans_black1x1_eval :
    kMeans black1x1 3 (fun _ => (0, 0)) 2 = some kFinal1x1 := by
  unfold kMeans
  rw [show List.range' 2 (3 - 1) = [2, 3] from rfl]
  simp only [List.foldlM_cons, List.foldlM_nil]
  rw [show kMeansForK black1x1 2 ((fun _ : ℕ => ((0, 0) : ℕ × ℕ)) 2) 2 =
      kMeansForK black1x1 2 (0, 0) 2 from rfl, kForK2_black1x1]
  simp only [Option.bind_eq_bind, Option.some_bind]
  rw [show kMeansForK black1x1 3 ((fun _ : ℕ => ((0, 0) : ℕ × ℕ)) 3) 2 =
      kMeansForK black1x1 3 (0, 0) 2 from rfl, kForK3_black1x1]
  rfl

theorem k_means_stores_last_candidate_witness :
    (2 : ℕ) ≤ 3 ∧ kMeans black1x1 3 (fun _ => (0, 0)) 2 = some kFinal1x1 ∧
    kMeansForK black1x1 3 (0, 0) 2 = some kFinal1x1 := by
  refine ⟨by norm_num, kMeans_black1x1_eval, ?_⟩
  exact k_means_stores_last_candidate black1x1 3 (fun _ => (0, 0)) 2 kFinal1x1 (by norm_num)
    kMeans_black1x1_eval

end Imgsim
